import Mathlib

/-!
# Verification development for the `htmlToSvg` HTML-to-SVG converter

This file gives a shallow embedding, in Lean 4, of the conversion pipeline of
`src/htmlToSvg.ts`: style-value parsers (colors, gradients, borders, shadows,
lengths), the DOM tree snapshotter, and the SVG document emitter, together with
theorems settling the specification claims about them.

Modelling conventions:
* JavaScript strings are Lean `String`s (lists of characters); all inputs of
  interest are ASCII.
* JavaScript numbers are modelled as exact rationals `ℚ`; `NaN` (as produced
  by `parseFloat`/`parseInt`/`Number` on unparseable input) is modelled by
  `Option ℚ` with `none` for `NaN`.  Arithmetic is exact (the standard
  abstraction from IEEE-754 rounding).
* The ad hoc regular expressions of the source are embedded as deterministic
  matchers.  For each regex of the source the backtracking semantics on its
  pattern collapses to maximal munch (every repeated class is followed by a
  symbol disjoint from the class), so the matchers below are faithful.
* `Math.cos`/`Math.sin` (used only for gradient direction vectors) are opaque
  deterministic host functions; the embedding is parameterised by a `JsMath`
  record providing them.  `Math.PI` is the exact rational value of the IEEE
  double `Math.PI`.
* The module-global mutable counter `nodeCounter` is threaded explicitly as a
  `Nat` state argument.
-/

namespace HtmlSvg

/-! ## Character classes and basic list utilities -/

/-- The character class of the regex `\s` (and of `String.prototype.trim`),
restricted to ASCII: space, tab, line feed, vertical tab, form feed,
carriage return. -/
def isRegexSpace (c : Char) : Bool :=
  c = ' ' ∨ c = '\t' ∨ c = '\n' ∨ c = '\x0b' ∨ c = '\x0c' ∨ c = '\r'

/-- The character class `[0-9a-fA-F]` of hexadecimal digits. -/
def isHexDigit (c : Char) : Bool :=
  ('0' ≤ c ∧ c ≤ '9') ∨ ('a' ≤ c ∧ c ≤ 'f') ∨ ('A' ≤ c ∧ c ≤ 'F')

/-- The character class `[\d.]` used by the rgba alpha capture group. -/
def isDigitDot (c : Char) : Bool :=
  c.isDigit ∨ c = '.'

/-- ASCII letters, the class `[a-z]` under the `/i` flag. -/
def isAsciiLetter (c : Char) : Bool :=
  ('a' ≤ c ∧ c ≤ 'z') ∨ ('A' ≤ c ∧ c ≤ 'Z')

/-- ASCII lower-casing of a character (`String.prototype.toLowerCase` on the
ASCII range). -/
def lowerChar (c : Char) : Char :=
  if 'A' ≤ c ∧ c ≤ 'Z' then Char.ofNat (c.toNat + 32) else c

/-- ASCII upper-casing of a character. -/
def upperChar (c : Char) : Char :=
  if 'a' ≤ c ∧ c ≤ 'z' then Char.ofNat (c.toNat - 32) else c

/-- Case-insensitive comparison against a (lower-case ASCII letter) reference
character, as performed by the `/i` regex flag: the character matches either
the reference letter or its upper-case form. -/
def ciIs (c target : Char) : Bool :=
  c = target ∨ c = upperChar target

/-- The longest boolean-predicate prefix of a list and the rest
(`List.span`, re-implemented to keep the proofs self-contained). -/
def grabWhile (p : Char → Bool) : List Char → List Char × List Char
  | [] => ([], [])
  | c :: cs =>
    if p c then
      let r := grabWhile p cs
      (c :: r.1, r.2)
    else ([], c :: cs)

/-- Whether the head of a list satisfies a predicate (`false` on `[]`). -/
def headSat (p : Char → Bool) : List Char → Bool
  | [] => false
  | c :: _ => p c

/-- `strStarts pat s` holds when `pat` is an initial segment of `s`. -/
def strStarts : List Char → List Char → Bool
  | [], _ => true
  | _ :: _, [] => false
  | p :: ps, c :: cs => p = c ∧ strStarts ps cs

/-- Case-insensitive `strStarts` against a lower-case pattern. -/
def ciStarts : List Char → List Char → Bool
  | [], _ => true
  | _ :: _, [] => false
  | p :: ps, c :: cs => ciIs c p ∧ ciStarts ps cs

/-- `containsSub s pat`: `String.prototype.includes`, does `pat` occur in `s`? -/
def containsSub (s pat : List Char) : Bool :=
  match s with
  | [] => strStarts pat []
  | _ :: rest => strStarts pat s || containsSub rest pat

/-- `strEnds s pat`: `String.prototype.endsWith`. -/
def strEnds (s pat : List Char) : Bool :=
  strStarts pat.reverse s.reverse

/-- `String.prototype.trim` on character lists. -/
def trimL (s : List Char) : List Char :=
  ((s.dropWhile isRegexSpace).reverse.dropWhile isRegexSpace).reverse

/-- `String.prototype.trim`. -/
def jsTrim (s : String) : String :=
  String.mk (trimL s.data)

/-- Split a character list at every occurrence of the character `sep`
(`String.prototype.split` with a one-character separator string). -/
def splitOnChar (sep : Char) : List Char → List (List Char)
  | [] => [[]]
  | c :: rest =>
    let r := splitOnChar sep rest
    if c = sep then [] :: r
    else
      match r with
      | [] => [[c]]
      | h :: t => (c :: h) :: t

/-- Join a list of character lists with a separator list
(`Array.prototype.join`). -/
def joinWith (sep : List Char) : List (List Char) → List Char
  | [] => []
  | [x] => x
  | x :: rest => x ++ sep ++ joinWith sep rest

/-- Expand every character of a list through `f` and concatenate the results. -/
def expandChars (f : Char → List Char) : List Char → List Char
  | [] => []
  | c :: rest => f c ++ expandChars f rest

/-- `String.prototype.replace` with a global single-character pattern:
every occurrence of `c` is replaced by `rep`. -/
def jsReplaceChar (c : Char) (rep : List Char) (s : List Char) : List Char :=
  expandChars (fun x => if x = c then rep else [x]) s

/-- `String.prototype.replace` with a global multi-character literal pattern
`p0 :: prest`, leftmost, non-overlapping, continuing after each match. -/
def replaceSubAll (p0 : Char) (prest rep : List Char) : List Char → List Char
  | [] => []
  | c :: rest =>
    if c = p0 ∧ strStarts prest rest then
      rep ++ replaceSubAll p0 prest rep (rest.drop prest.length)
    else
      c :: replaceSubAll p0 prest rep rest
termination_by s => s.length
decreasing_by
  all_goals simp [List.length_drop]
  omega

/-! ## Numeric utilities: `parseFloat`, `parseInt`, number printing -/

/-- Decimal value of a digit list (the value `parseInt` assigns to a `\d+`
match). -/
def digitsVal (ds : List Char) : Nat :=
  ds.foldl (fun a c => a * 10 + (c.toNat - 48)) 0

/-- Value of a single hexadecimal digit. -/
def hexDigitVal (c : Char) : Nat :=
  if c.isDigit then c.toNat - 48
  else if 'a' ≤ c ∧ c ≤ 'f' then c.toNat - 87
  else if 'A' ≤ c ∧ c ≤ 'F' then c.toNat - 55
  else 0

/-- Hexadecimal value of a digit list. -/
def hexVal (ds : List Char) : Nat :=
  ds.foldl (fun a c => a * 16 + hexDigitVal c) 0

/-- `Number.prototype.toString(16)` for a natural number: lower-case
hexadecimal digits, no padding. -/
def natToHex (n : Nat) : List Char :=
  if _h : n < 16 then [Nat.digitChar n]
  else natToHex (n / 16) ++ [Nat.digitChar (n % 16)]
termination_by n
decreasing_by
  exact Nat.div_lt_self (by omega) (by omega)

/-- `String.prototype.padStart(2, '0')`. -/
def padTwo (s : List Char) : List Char :=
  if s.length = 0 then ['0', '0']
  else if s.length = 1 then '0' :: s
  else s

/-- Split an optional leading `-`/`+` sign off a numeric literal. -/
def signSplit : List Char → ℚ × List Char
  | '-' :: r => (-1, r)
  | '+' :: r => (1, r)
  | r => (1, r)

/-- `parseFloat` (ECMA-262) on a character list, `none` for `NaN`.
Leading whitespace is skipped, then the longest decimal-literal prefix
(optional sign, integer digits, optional fraction, optional well-formed
exponent) is converted; the `Infinity` literal is not modelled (it never
occurs in CSS values). -/
def jsParseFloatL (s : List Char) : Option ℚ :=
  let s1 := (grabWhile isRegexSpace s).2
  let signRest := signSplit s1
  let sign := signRest.1
  let (ip, s2) := grabWhile Char.isDigit signRest.2
  let fracRest : Option (List Char) × List Char :=
    match s2 with
    | '.' :: r =>
      let fr := grabWhile Char.isDigit r
      (some fr.1, fr.2)
    | r => (none, r)
  let fp := fracRest.1.getD []
  if ip = [] ∧ fp = [] then none
  else
    let mant : ℚ := (digitsVal ip : ℚ) + (digitsVal fp : ℚ) / (10 : ℚ) ^ fp.length
    let e : ℤ :=
      match fracRest.2 with
      | c :: r =>
        if c = 'e' ∨ c = 'E' then
          let es := signSplit r
          let ed := (grabWhile Char.isDigit es.2).1
          if ed = [] then 0
          else (if es.1 = 1 then (1 : ℤ) else -1) * (digitsVal ed : ℤ)
        else 0
      | [] => 0
    some (sign * mant * (10 : ℚ) ^ e)

/-- `parseFloat` on a string (`none` models `NaN`). -/
def jsParseFloat (s : String) : Option ℚ :=
  jsParseFloatL s.data

/-- `parseInt(s, 10)` (`none` models `NaN`): skip whitespace, optional sign,
then a nonempty decimal-digit prefix. -/
def jsParseInt10 (s : List Char) : Option ℤ :=
  let s1 := (grabWhile isRegexSpace s).2
  let signRest := signSplit s1
  let ds := (grabWhile Char.isDigit signRest.2).1
  if ds = [] then none
  else some ((if signRest.1 = 1 then (1 : ℤ) else -1) * (digitsVal ds : ℤ))

/-- Strip an optional leading `0x`/`0X` hexadecimal prefix. -/
def strip0x : List Char → List Char
  | c :: x :: r => if c = '0' ∧ (x = 'x' ∨ x = 'X') then r else c :: x :: r
  | r => r

/-- `parseInt(s, 16)` (`none` models `NaN`): skip whitespace, optional sign,
optional `0x`/`0X`, then a nonempty hexadecimal-digit prefix. -/
def jsParseInt16 (s : List Char) : Option ℤ :=
  let s1 := (grabWhile isRegexSpace s).2
  let signRest := signSplit s1
  let ds := (grabWhile isHexDigit (strip0x signRest.2)).1
  if ds = [] then none
  else some ((if signRest.1 = 1 then (1 : ℤ) else -1) * (hexVal ds : ℤ))

/-- `Math.round`: round half toward positive infinity. -/
def jsRound (x : ℚ) : ℤ :=
  ⌊x + 1 / 2⌋

/-- `Number.EPSILON`, i.e. `2⁻⁵²`. -/
def numEPSILON : ℚ :=
  1 / 2 ^ 52

/-- Three-decimal-digit rendering of `n < 1000` (the fractional part of
`toFixed(3)`). -/
def padThree (n : Nat) : List Char :=
  [Nat.digitChar (n / 100), Nat.digitChar (n / 10 % 10), Nat.digitChar (n % 10)]

/-- Drop trailing `'0'` characters (the regex replace `/0+$/`). -/
def stripTrailZeros (s : List Char) : List Char :=
  (s.reverse.dropWhile (fun c => c = '0')).reverse

/-- `formatNumber` of the source: round `(value + Number.EPSILON) * 1000`,
print an integer plainly, otherwise `toFixed(3)` with trailing zeros and a
trailing dot stripped. -/
def formatNumber (value : ℚ) : String :=
  let k : ℤ := jsRound ((value + numEPSILON) * 1000)
  if k % 1000 = 0 then toString (k / 1000)
  else
    let sgn : List Char := if k < 0 then ['-'] else []
    let a := k.natAbs
    String.mk (sgn ++ (toString (a / 1000)).data ++ '.' :: stripTrailZeros (padThree (a % 1000)))

/-- `formatPercentage` of the source: `Math.round(value * 10000) / 100`
printed as a JavaScript number, with a trailing `%`. -/
def formatPercentage (value : ℚ) : String :=
  let m : ℤ := jsRound (value * 10000)
  let core : List Char :=
    if m % 100 = 0 then (toString (m / 100)).data
    else
      let sgn : List Char := if m < 0 then ['-'] else []
      let a := m.natAbs
      sgn ++ (toString (a / 100)).data ++
        '.' :: stripTrailZeros [Nat.digitChar (a / 10 % 10), Nat.digitChar (a % 10)]
  String.mk (core ++ ['%'])

/-- Template-literal printing `${x}` of a JavaScript number, restricted to the
rationals produced by this pipeline.  Integers print plainly; non-integers
print as a decimal expansion of up to twenty fractional digits with trailing
zeros stripped (exact for every terminating decimal; an abstraction of the
shortest-round-trip float printing otherwise). -/
def qToJsDecimal (q : ℚ) : List Char :=
  if q.den = 1 then (toString q.num).data
  else
    let sgn : List Char := if q.num < 0 then ['-'] else []
    let na := q.num.natAbs
    let ipart := na / q.den
    let scaled := na % q.den * 10 ^ 20 / q.den
    let rawDigits := (Nat.toDigits 10 scaled).map id
    let fracPadded := List.replicate (20 - rawDigits.length) '0' ++ rawDigits
    sgn ++ (toString ipart).data ++ '.' :: stripTrailZeros fracPadded

/-- Template-literal printing of a possibly-`NaN` JavaScript number. -/
def jsNumToString (q : Option ℚ) : List Char :=
  match q with
  | none => ['N', 'a', 'N']
  | some v => qToJsDecimal v

/-! ## The color parser (`RGBA_REGEX`, `HEX_REGEX`, `parseColor`) -/

/-- The groups captured by a successful `RGBA_REGEX` match: the three
`\d+` channel groups and the optional `[\d.]+` alpha group. -/
structure RgbaGroups where
  d1 : List Char
  d2 : List Char
  d3 : List Char
  alpha : Option (List Char)
deriving DecidableEq

/-- Consume `\s*,\s*`: optional whitespace, a comma, optional whitespace. -/
def expectCommaWs (s : List Char) : Option (List Char) :=
  match (grabWhile isRegexSpace s).2 with
  | ',' :: r => some (grabWhile isRegexSpace r).2
  | _ => none

/-- Attempt the optional alpha part `(?:\s*,\s*([\d.]+))?` followed by `\)`;
`none` means the optional group (or the closing paren after it) failed and the
engine falls back to matching `\)` directly. -/
def tryAlphaClose (s : List Char) : Option (List Char) :=
  match expectCommaWs s with
  | none => none
  | some r =>
    let (a, r') := grabWhile isDigitDot r
    if a = [] then none
    else
      match r' with
      | ')' :: _ => some a
      | _ => none

/-- The body of `RGBA_REGEX` after the literal `(`: the three `\d+` channel
groups separated by `\s*,\s*`, then the optional alpha group and `\)`. -/
def matchRgbaInner (r0 : List Char) : Option RgbaGroups :=
  let (d1, r1) := grabWhile Char.isDigit r0
  if d1 = [] then none
  else
    match expectCommaWs r1 with
    | none => none
    | some r2 =>
      let (d2, r3) := grabWhile Char.isDigit r2
      if d2 = [] then none
      else
        match expectCommaWs r3 with
        | none => none
        | some r4 =>
          let (d3, r5) := grabWhile Char.isDigit r4
          if d3 = [] then none
          else
            match tryAlphaClose r5 with
            | some a => some ⟨d1, d2, d3, some a⟩
            | none =>
              match r5 with
              | ')' :: _ => some ⟨d1, d2, d3, none⟩
              | _ => none

/-- Match `RGBA_REGEX` = `rgba?\((\d+)\s*,\s*(\d+)\s*,\s*(\d+)(?:\s*,\s*([\d.]+))?\)`
(case-insensitive) anchored at the head of the list. -/
def matchRgbaAt (s : List Char) : Option RgbaGroups :=
  match s with
  | c1 :: c2 :: c3 :: rest =>
    if ciIs c1 'r' ∧ ciIs c2 'g' ∧ ciIs c3 'b' then
      let rest1 : List Char :=
        match rest with
        | c :: r => if ciIs c 'a' then r else rest
        | [] => rest
      match rest1 with
      | '(' :: r0 => matchRgbaInner r0
      | _ => none
    else none
  | _ => none

/-- `String.prototype.match(RGBA_REGEX)`: leftmost match anywhere in the
string. -/
def searchRgba : List Char → Option RgbaGroups
  | [] => none
  | c :: rest =>
    match matchRgbaAt (c :: rest) with
    | some g => some g
    | none => searchRgba rest

/-- Match `HEX_REGEX` = `^#([0-9a-f]{3}|[0-9a-f]{4}|[0-9a-f]{6}|[0-9a-f]{8})$`
(case-insensitive); returns the digit group. -/
def hexFullMatch (s : List Char) : Option (List Char) :=
  match s with
  | '#' :: rest =>
    if rest.all isHexDigit ∧
        (rest.length = 3 ∨ rest.length = 4 ∨ rest.length = 6 ∨ rest.length = 8) then
      some rest
    else none
  | _ => none

/-- A parsed color: a color string plus a separate opacity (the `RgbaColor`
record of the source). -/
structure RgbaColor where
  color : String
  opacity : ℚ
deriving DecidableEq

/-- `clampNumber`: replace `NaN` (modelled by `none`) by the fallback. -/
def clampNumber (value : Option ℚ) (fallback : ℚ) : ℚ :=
  value.getD fallback

/-- `clampChannel`: clamp a parsed channel into `0 … 255` (the lower clamp is
vacuous for the natural numbers produced by a `\d+` group). -/
def clampChannel (value : Nat) : Nat :=
  min 255 value

/-- `rgbToHex`: `#` followed by the three channels in two lower-case hex
digits each (`toString(16).padStart(2, '0')`). -/
def rgbToHex (r g b : Nat) : String :=
  String.mk ('#' :: padTwo (natToHex r) ++ padTwo (natToHex g) ++ padTwo (natToHex b))

/-- `normalizeHex`: expand 3/4-digit hex by doubling each digit and append
`ff` to alpha-less forms, yielding an 8-digit value (6/8-digit forms handled
likewise). -/
def normalizeHex (value : List Char) : List Char :=
  if value.length = 3 then (expandChars (fun c => [c, c]) value) ++ ['f', 'f']
  else if value.length = 4 then expandChars (fun c => [c, c]) value
  else if value.length = 6 then value ++ ['f', 'f']
  else value

/-- `parseColor`: rgb()/rgba() and hex forms are normalised to a 6-hex-digit
color plus an opacity; anything else passes through verbatim with opacity 1;
empty input is opaque black. -/
def parseColor (value : String) : RgbaColor :=
  if value = "" then ⟨"#000000", 1⟩
  else
    let trimmed := trimL value.data
    match searchRgba trimmed with
    | some g =>
      let r := clampChannel (digitsVal g.d1)
      let gc := clampChannel (digitsVal g.d2)
      let b := clampChannel (digitsVal g.d3)
      let a : ℚ :=
        match g.alpha with
        | some av => clampNumber (jsParseFloatL av) 1
        | none => 1
      ⟨rgbToHex r gc b, a⟩
    | none =>
      match hexFullMatch trimmed with
      | some ds =>
        let normalized := normalizeHex ds
        let opacity : ℚ :=
          if normalized.length = 8 then
            -- `normalized.slice(6)` is always two hex digits here, so the
            -- `parseInt(…, 16)` of the source cannot be NaN.
            match jsParseInt16 (normalized.drop 6) with
            | some z => (z : ℚ) / 255
            | none => 0
          else 1
        ⟨String.mk ('#' :: normalized.take 6), opacity⟩
      | none => ⟨String.mk trimmed, 1⟩

/-! ## Structured style records (the exported types of the source) -/

/-- A gradient stop: color, opacity, offset. -/
structure GradientStop where
  color : String
  opacity : ℚ
  offset : ℚ
deriving DecidableEq

/-- A parsed `linear-gradient(...)`: angle in degrees and ordered stops. -/
structure LinearGradientFill where
  angle : ℚ
  stops : List GradientStop
deriving DecidableEq

/-- A fill: solid color or linear gradient. -/
inductive Fill where
  | solid (color : String) (opacity : ℚ)
  | linearGradient (g : LinearGradientFill)
deriving DecidableEq

/-- One border side. -/
structure BorderSide where
  width : ℚ
  color : String
  opacity : ℚ
  style : String
deriving DecidableEq

/-- The four border sides. -/
structure BorderSet where
  top : BorderSide
  right : BorderSide
  bottom : BorderSide
  left : BorderSide
deriving DecidableEq

/-- The four corner radii. -/
structure BorderRadius where
  topLeft : ℚ
  topRight : ℚ
  bottomRight : ℚ
  bottomLeft : ℚ
deriving DecidableEq

/-- One parsed box shadow. -/
structure BoxShadow where
  inset : Bool
  offsetX : ℚ
  offsetY : ℚ
  blur : ℚ
  spread : ℚ
  color : String
  opacity : ℚ
deriving DecidableEq

/-- The text payload of a text node. -/
structure TextPayload where
  content : String
  color : String
  opacity : ℚ
  fontFamily : String
  fontSize : ℚ
  fontWeight : String
  fontStyle : String
  letterSpacing : ℚ
  lineHeight : ℚ
  textAnchor : String
deriving DecidableEq

/-- The resolved computed style of an element, as read through
`window.getComputedStyle`: all values are fully resolved strings. -/
structure ComputedStyle where
  display : String
  visibility : String
  opacity : String
  color : String
  backgroundColor : String
  backgroundImage : String
  overflow : String
  overflowX : String
  overflowY : String
  boxShadow : String
  fontSize : String
  fontFamily : String
  fontWeight : String
  fontStyle : String
  letterSpacing : String
  lineHeight : String
  textAlign : String
  borderTopLeftRadius : String
  borderTopRightRadius : String
  borderBottomRightRadius : String
  borderBottomLeftRadius : String
  borderTopWidth : String
  borderTopStyle : String
  borderTopColor : String
  borderRightWidth : String
  borderRightStyle : String
  borderRightColor : String
  borderBottomWidth : String
  borderBottomStyle : String
  borderBottomColor : String
  borderLeftWidth : String
  borderLeftStyle : String
  borderLeftColor : String
deriving DecidableEq

/-! ## Length parsers (`PX_REGEX`, `parsePx`, `parseLineHeight`) -/

/-- Convert a string literal to its character list. -/
def toL (s : String) : List Char :=
  s.data

/-- Match `PX_REGEX` = `(-?\d+(?:\.\d+)?)px` anchored at the head of the list,
returning the captured group.  The only regex backtracking possible on this
pattern is dropping the optional fraction group, which is modelled explicitly. -/
def matchPxAt (s : List Char) : Option (List Char) :=
  let signRest : List Char × List Char :=
    match s with
    | '-' :: r => (['-'], r)
    | r => ([], r)
  let (ip, s2) := grabWhile Char.isDigit signRest.2
  if ip = [] then none
  else
    let withFrac : Option (List Char) :=
      match s2 with
      | '.' :: r =>
        let (fp, r') := grabWhile Char.isDigit r
        if fp = [] then none
        else if strStarts ['p', 'x'] r' then some (signRest.1 ++ ip ++ '.' :: fp) else none
      | _ => none
    match withFrac with
    | some g => some g
    | none => if strStarts ['p', 'x'] s2 then some (signRest.1 ++ ip) else none

/-- Leftmost `PX_REGEX` match anywhere in the list. -/
def searchPx (s : List Char) : Option (List Char) :=
  match matchPxAt s with
  | some g => some g
  | none =>
    match s with
    | [] => none
    | _ :: rest => searchPx rest

/-- `parsePx` on a character list: the first `…px` number, else a bare float,
else the fallback.  The captured group of `PX_REGEX` is always a valid decimal
literal, so its `parseFloat` cannot be NaN. -/
def parsePxL (value : List Char) (fallback : ℚ) : ℚ :=
  if value = [] then fallback
  else
    match searchPx value with
    | some g => (jsParseFloatL g).getD 0
    | none =>
      match jsParseFloatL value with
      | some parsed => parsed
      | none => fallback

/-- `parsePx` on a string. -/
def parsePx (value : String) (fallback : ℚ := 0) : ℚ :=
  parsePxL value.data fallback

/-- `parseLineHeight`: `normal` is 1.2 × font size, `…%` a percentage of the
font size, `…px` absolute, a bare number a multiplier, anything else the
`normal` default.  (A NaN percentage line-height is modelled as 0; the
line-height value is never serialized into the output document.) -/
def parseLineHeight (value : String) (fontSize : ℚ) : ℚ :=
  if value = "" ∨ value = "normal" then fontSize * 1.2
  else if strEnds value.data ['%'] then ((jsParseFloatL value.data).getD 0 / 100) * fontSize
  else if strEnds value.data (toL "px") then parsePx value fontSize
  else
    match jsParseFloatL value.data with
    | some numeric => numeric * fontSize
    | none => fontSize * 1.2

/-- `sanitizeFontFamily`: split on commas, trim each family name, strip single
and double quotes, re-join with `", "`; empty input falls back to
`sans-serif`. -/
def sanitizeFontFamily (value : String) : String :=
  if value = "" then "sans-serif"
  else
    String.mk (joinWith (toL ", ")
      ((splitOnChar ',' value.data).map
        (fun fam => (trimL fam).filter (fun c => if c = '"' ∨ c = '\'' then false else true))))

/-- `toTextAnchor`: map a `text-align` value to an SVG `text-anchor`. -/
def toTextAnchor (textAlign : String) : String :=
  if textAlign = "center" then "middle"
  else if textAlign = "right" ∨ textAlign = "end" then "end"
  else "start"

/-! ## The linear-gradient parser -/

/-- Leftmost occurrence of `pat` in `s`: the part before the occurrence and
the suffix starting with it (`String.prototype.indexOf`). -/
def splitAtSub (s pat : List Char) : Option (List Char × List Char) :=
  if strStarts pat s then some ([], s)
  else
    match s with
    | [] => none
    | c :: rest => (splitAtSub rest pat).map (fun pr => (c :: pr.1, pr.2))

/-- Split at the first occurrence of a character: part before it and part
after it. -/
def splitFirstChar (s : List Char) (target : Char) : Option (List Char × List Char) :=
  match s with
  | [] => none
  | c :: rest =>
    if c = target then some ([], rest)
    else (splitFirstChar rest target).map (fun pr => (c :: pr.1, pr.2))

/-- Depth-balanced scan after an opening parenthesis (depth starts at the
given value): the consumed prefix up to and including the parenthesis that
closes depth 1, or `none` if the input ends first. -/
def balancedUpTo : List Char → Nat → Option (List Char)
  | [], _ => none
  | c :: rest, depth =>
    if c = '(' then (balancedUpTo rest (depth + 1)).map (c :: ·)
    else if c = ')' then
      if depth = 1 then some [c]
      else (balancedUpTo rest (depth - 1)).map (c :: ·)
    else (balancedUpTo rest depth).map (c :: ·)

/-- `extractLinearGradientSegment`: locate the first `linear-gradient`, the
first `(` after it, and the parenthesis-balanced closing `)`; return the whole
`linear-gradient(...)` segment. -/
def extractLinearGradientSegment (value : List Char) : Option (List Char) :=
  match splitAtSub value (toL "linear-gradient") with
  | none => none
  | some (_, suffix) =>
    match splitFirstChar suffix '(' with
    | none => none
    | some (pre, after) => (balancedUpTo after 1).map (fun body => pre ++ '(' :: body)

/-- `segment.slice(segment.indexOf('(') + 1, -1)`: the argument list between
the first `(` and the final character. -/
def gradientInner (segment : List Char) : List Char :=
  match splitFirstChar segment '(' with
  | none => segment.dropLast
  | some (_, after) => after.dropLast

/-- Top-level comma split shared by `splitGradientArgs` and
`splitShadowValue`: split on commas at parenthesis depth 0, trimming every
piece; a trailing piece is kept only when nonempty after trimming. -/
def splitTopCommaAux : List Char → List Char → Nat → List (List Char)
  | [], buffer, _ => if trimL buffer.reverse ≠ [] then [trimL buffer.reverse] else []
  | c :: rest, buffer, depth =>
    if c = ',' ∧ depth = 0 then trimL buffer.reverse :: splitTopCommaAux rest [] 0
    else
      let depth' := if c = '(' then depth + 1 else if c = ')' then depth - 1 else depth
      splitTopCommaAux rest (c :: buffer) depth'

/-- `splitGradientArgs`. -/
def splitGradientArgs (input : List Char) : List (List Char) :=
  splitTopCommaAux input [] 0

/-- `splitShadowValue` (same top-level comma split as `splitGradientArgs`). -/
def splitShadowValue (value : List Char) : List (List Char) :=
  splitTopCommaAux value [] 0

/-- The exact rational value of the IEEE-754 double constant `Math.PI`. -/
def mathPI : ℚ :=
  884279719003555 / 281474976710656

/-- `parseGradientAngle`: `…deg` and `…rad` numeric forms, the eight `to …`
keywords, `180` for anything else. -/
def parseGradientAngle (token : List Char) : ℚ :=
  let trimmed := (trimL token).map lowerChar
  if strEnds trimmed (toL "deg") then clampNumber (jsParseFloatL trimmed) 180
  else if strEnds trimmed (toL "rad") then
    clampNumber ((jsParseFloatL trimmed).map (fun v => v * 180 / mathPI)) 180
  else if trimmed = toL "to top" then 0
  else if trimmed = toL "to right" then 90
  else if trimmed = toL "to bottom" then 180
  else if trimmed = toL "to left" then 270
  else if trimmed = toL "to top right" then 45
  else if trimmed = toL "to top left" then 315
  else if trimmed = toL "to bottom right" then 135
  else if trimmed = toL "to bottom left" then 225
  else 180

/-- The lookahead `[^()]*\)` of the stop-splitting regex succeeds exactly when
the first parenthesis character in the list is a closing one. -/
def lookaheadCloseParen : List Char → Bool
  | [] => false
  | c :: rest =>
    if c = ')' then true
    else if c = '(' then false
    else lookaheadCloseParen rest

theorem grabWhile_snd_length_le (p : Char → Bool) : ∀ s : List Char, ((grabWhile p s).2).length ≤ s.length := by
  intro s
  induction s with
  | nil => simp [grabWhile]
  | cons c cs ih =>
    by_cases h : p c
    · simp only [grabWhile, h, if_pos, List.length_cons]
      omega
    · simp [grabWhile, h]

/-- Split a stop token on `/\s+(?![^()]*\))/`: maximal whitespace runs are
delimiters unless the next parenthesis character after the run is `)` (i.e.
unless the run sits inside a function argument list). -/
def splitStopWsAux : List Char → List Char → List (List Char)
  | [], buffer => [buffer.reverse]
  | c :: rest, buffer =>
    if isRegexSpace c then
      let pr := grabWhile isRegexSpace rest
      if lookaheadCloseParen pr.2 then splitStopWsAux pr.2 (pr.1.reverse ++ c :: buffer)
      else buffer.reverse :: splitStopWsAux pr.2 []
    else splitStopWsAux rest (c :: buffer)
termination_by s _ => s.length
decreasing_by
  · have := grabWhile_snd_length_le isRegexSpace rest
    simp only [List.length_cons]
    omega
  · have := grabWhile_snd_length_le isRegexSpace rest
    simp only [List.length_cons]
    omega
  · simp

/-- `token.split(/\s+(?![^()]*\))/)`. -/
def splitStopWs (token : List Char) : List (List Char) :=
  splitStopWsAux token []

/-- `parseGradientStop`: an empty token is unusable; a trailing `…%` part (when
the token has several whitespace-split parts) is the explicit offset, clamped
to the positional fallback only when NaN; the rest of the token is the color;
a missing explicit offset falls back to `index / max(total - 1, 1)`. -/
def parseGradientStop (token : List Char) (index total : Nat) : Option GradientStop :=
  if token = [] then none
  else
    let parts := splitStopWs token
    let fallbackOff : ℚ := (index : ℚ) / max ((total : ℚ) - 1) 1
    let co : List Char × Option ℚ :=
      match parts.reverse with
      | mo :: restRev =>
        if restRev ≠ [] ∧ strEnds mo ['%'] then
          (joinWith [' '] restRev.reverse,
            some (clampNumber ((jsParseFloatL mo).map (· / 100)) fallbackOff))
        else (token, none)
      | [] => (token, none)
    let c := parseColor (String.mk co.1)
    some ⟨c.color, c.opacity, co.2.getD fallbackOff⟩

/-- The `forEach`/push loop of `parseLinearGradient` over the stop tokens:
each token is trimmed and parsed with its token index and the token count;
unusable tokens produce no stop. -/
def buildStops : List (List Char) → Nat → Nat → List GradientStop
  | [], _, _ => []
  | t :: rest, index, total =>
    match parseGradientStop (trimL t) index total with
    | some st => st :: buildStops rest (index + 1) total
    | none => buildStops rest (index + 1) total

/-- `parseLinearGradient`: extract the segment, split the argument list on
top-level commas, read an optional leading angle token, and require at least
two stop tokens and at least two usable stops. -/
def parseLinearGradient (value : String) : Option LinearGradientFill :=
  match extractLinearGradientSegment value.data with
  | none => none
  | some segment =>
    let tokens := splitGradientArgs (gradientInner segment)
    match tokens with
    | [] => none
    | t0 :: _ =>
      let isAngleTok :=
        containsSub t0 (toL "deg") || containsSub t0 (toL "rad") || strStarts (toL "to ") t0
      let angle : ℚ := if isAngleTok then parseGradientAngle t0 else 180
      let startIndex := if isAngleTok then 1 else 0
      if tokens.length - startIndex < 2 then none
      else
        let stopTokens := tokens.drop startIndex
        let stops := buildStops stopTokens 0 stopTokens.length
        if stops.length < 2 then none
        else some ⟨angle, stops⟩

/-! ## The fill parser -/

/-- `parseFill`: a parseable `linear-gradient` in the background image wins;
otherwise a background color other than the transparent literals
`rgba(0, 0, 0, 0)` / `transparent` (and other than the empty string) gives a
solid fill; otherwise no fill. -/
def parseFill (style : ComputedStyle) : Option Fill :=
  let gradient :=
    if style.backgroundImage ≠ "" ∧ style.backgroundImage ≠ "none" then
      parseLinearGradient style.backgroundImage
    else none
  match gradient with
  | some g => some (Fill.linearGradient g)
  | none =>
    if style.backgroundColor ≠ "" ∧ style.backgroundColor ≠ "rgba(0, 0, 0, 0)" ∧
        style.backgroundColor ≠ "transparent" then
      let c := parseColor style.backgroundColor
      some (Fill.solid c.color c.opacity)
    else none

/-! ## The border parsers -/

/-- The fixed fallback border side. -/
def defaultBorderSide : BorderSide :=
  ⟨0, "#000000", 1, "solid"⟩

/-- One side of `parseBorders`: dropped when its width is not positive or its
style is `none`. -/
def parseBorderSideOf (widthValue styleValue colorValue : String) : Option BorderSide :=
  let width := parsePx widthValue 0
  if width ≤ 0 ∨ styleValue = "none" then none
  else
    let c := parseColor colorValue
    some ⟨width, c.color, c.opacity, styleValue⟩

/-- `parseBorders`: evaluate the four sides independently; all dropped means
no border set; kept sides fill in through the fallback side. -/
def parseBorders (style : ComputedStyle) : Option BorderSet :=
  let t := parseBorderSideOf style.borderTopWidth style.borderTopStyle style.borderTopColor
  let r := parseBorderSideOf style.borderRightWidth style.borderRightStyle style.borderRightColor
  let b := parseBorderSideOf style.borderBottomWidth style.borderBottomStyle style.borderBottomColor
  let l := parseBorderSideOf style.borderLeftWidth style.borderLeftStyle style.borderLeftColor
  if t = none ∧ r = none ∧ b = none ∧ l = none then none
  else
    some ⟨t.getD defaultBorderSide, r.getD defaultBorderSide,
      b.getD defaultBorderSide, l.getD defaultBorderSide⟩

/-- One value of `parseBorderRadius`. -/
def parseRadiusValue (value : String) : ℚ :=
  if value ≠ "" ∧ value ≠ "0px" then parsePx value 0 else 0

/-- `parseBorderRadius`. -/
def parseBorderRadius (style : ComputedStyle) : BorderRadius :=
  ⟨parseRadiusValue style.borderTopLeftRadius,
    parseRadiusValue style.borderTopRightRadius,
    parseRadiusValue style.borderBottomRightRadius,
    parseRadiusValue style.borderBottomLeftRadius⟩

/-! ## The box-shadow parser -/

/-- The `rgba?\([^)]*\)` / `hsla?\([^)]*\)` alternatives of
`SHADOW_COLOR_REGEX`, anchored at the end of the string. -/
def altFnColor (name s : List Char) : Bool :=
  if ciStarts name s then
    let rest := s.drop name.length
    let rest1 : List Char :=
      match rest with
      | c :: r => if ciIs c 'a' then r else rest
      | [] => rest
    match rest1 with
    | '(' :: r0 =>
      match (grabWhile (fun c => c ≠ ')') r0).2 with
      | [')'] => true
      | _ => false
    | _ => false
  else false

/-- The `#[0-9a-f]{3,8}` alternative, anchored at the end. -/
def altHexColor (s : List Char) : Bool :=
  match s with
  | '#' :: rest => rest.all isHexDigit ∧ 3 ≤ rest.length ∧ rest.length ≤ 8
  | _ => false

/-- The `[a-z]+` alternative (case-insensitive), anchored at the end. -/
def altWordColor (s : List Char) : Bool :=
  s ≠ [] ∧ s.all isAsciiLetter

/-- A `SHADOW_COLOR_REGEX` match starting at this position (the regex is
anchored at `$`, so the whole remaining suffix must be matched). -/
def shadowColorAt (s : List Char) : Bool :=
  altFnColor (toL "rgb") s || altFnColor (toL "hsl") s || altHexColor s || altWordColor s

/-- Leftmost `SHADOW_COLOR_REGEX` match: the part before the match and the
matched suffix. -/
def shadowColorSearch (s : List Char) : Option (List Char × List Char) :=
  if shadowColorAt s then some ([], s)
  else
    match s with
    | [] => none
    | c :: rest => (shadowColorSearch rest).map (fun pr => (c :: pr.1, pr.2))

/-- Match `inset(\s|$)` (case-insensitive) at the head of the list, returning
the remainder after the match. -/
def matchInsetTail : List Char → Option (List Char)
  | c1 :: c2 :: c3 :: c4 :: c5 :: r =>
    if ciIs c1 'i' ∧ ciIs c2 'n' ∧ ciIs c3 's' ∧ ciIs c4 'e' ∧ ciIs c5 't' then
      match r with
      | [] => some []
      | c :: cr => if isRegexSpace c then some cr else none
    else none
  | _ => none

theorem matchInsetTail_length {s a : List Char} (h : matchInsetTail s = some a) :
    a.length < s.length := by
  match s with
  | [] => simp [matchInsetTail] at h
  | [c1] => simp [matchInsetTail] at h
  | [c1, c2] => simp [matchInsetTail] at h
  | [c1, c2, c3] => simp [matchInsetTail] at h
  | [c1, c2, c3, c4] => simp [matchInsetTail] at h
  | c1 :: c2 :: c3 :: c4 :: c5 :: [] =>
    simp only [matchInsetTail] at h
    split at h
    · simp only [Option.some.injEq] at h
      subst h
      simp
    · exact absurd h (by simp)
  | c1 :: c2 :: c3 :: c4 :: c5 :: c :: cr =>
    simp only [matchInsetTail] at h
    split at h
    · split at h
      · simp only [Option.some.injEq] at h
        subst h
        simp only [List.length_cons]
        omega
      · exact absurd h (by simp)
    · exact absurd h (by simp)

set_option linter.unusedVariables false in
/-- The global replace `value.replace(/(^|\s)inset(\s|$)/gi, ' ')`: scan left
to right, trying the `^`-anchored alternative (only at the true string start),
then the whitespace-prefixed alternative; each match — including its consumed
boundary characters — is replaced by a single space, and scanning resumes
after the match. -/
def replaceInsetGo : List Char → Bool → List Char
  | [], _ => []
  | c :: rest, startOk =>
    match hA : matchInsetTail (c :: rest) with
    | some after =>
      if startOk then ' ' :: replaceInsetGo after false
      else
        match hB : (if isRegexSpace c then matchInsetTail rest else none) with
        | some after2 => ' ' :: replaceInsetGo after2 false
        | none => c :: replaceInsetGo rest false
    | none =>
      match hB : (if isRegexSpace c then matchInsetTail rest else none) with
      | some after2 => ' ' :: replaceInsetGo after2 false
      | none => c :: replaceInsetGo rest false
termination_by s _ => s.length
decreasing_by
  · exact matchInsetTail_length hA
  · have hx : matchInsetTail rest = some after2 := by
      by_cases hc : isRegexSpace c
      · simpa [hc] using hB
      · simp [hc] at hB
    have := matchInsetTail_length hx
    simp only [List.length_cons]
    omega
  · simp
  · have hx : matchInsetTail rest = some after2 := by
      by_cases hc : isRegexSpace c
      · simpa [hc] using hB
      · simp [hc] at hB
    have := matchInsetTail_length hx
    simp only [List.length_cons]
    omega
  · simp

/-- The test `/(^|\s)inset(\s|$)/i.test(value)`. -/
def testInsetGo : List Char → Bool → Bool
  | [], _ => false
  | c :: rest, startOk =>
    if startOk ∧ (matchInsetTail (c :: rest)).isSome then true
    else if isRegexSpace c ∧ (matchInsetTail rest).isSome then true
    else testInsetGo rest false

/-- `inset` keyword detection of `parseSingleShadow`. -/
def testInset (value : List Char) : Bool :=
  testInsetGo value true

/-- Accumulating scanner behind `wordsOf`. -/
def wordsOfAux : List Char → List Char → List (List Char)
  | [], buffer => if buffer = [] then [] else [buffer.reverse]
  | c :: rest, buffer =>
    if isRegexSpace c then
      if buffer = [] then wordsOfAux rest []
      else buffer.reverse :: wordsOfAux rest []
    else wordsOfAux rest (c :: buffer)

/-- `split(/\s+/).filter(Boolean)`: the maximal non-whitespace runs. -/
def wordsOf (s : List Char) : List (List Char) :=
  wordsOfAux s []

/-- `parseSingleShadow`: strip the `inset` keyword, pull the trailing
color-like token, tokenize the rest positionally into offsets / blur /
spread; fewer than two numeric tokens discards the entry; blur is clamped
to be non-negative. -/
def parseSingleShadow (value : List Char) : Option BoxShadow :=
  if value = [] then none
  else
    let inset := testInset value
    let cleaned := trimL (replaceInsetGo value true)
    let ctNum : List Char × List Char :=
      match shadowColorSearch cleaned with
      | some (before, matched) => (matched, trimL before)
      | none => (toL "rgba(0, 0, 0, 0.25)", cleaned)
    let tokens := wordsOf ctNum.2
    if tokens.length < 2 then none
    else
      let ox := (tokens.get? 0).getD []
      let oy := (tokens.get? 1).getD []
      let bl := (tokens.get? 2).getD (toL "0px")
      let sp := (tokens.get? 3).getD (toL "0px")
      let c := parseColor (String.mk ctNum.1)
      some ⟨inset, parsePxL ox 0, parsePxL oy 0, max 0 (parsePxL bl 0), parsePxL sp 0,
        c.color, c.opacity⟩

/-- `parseBoxShadows`: split the shadow list on top-level commas and parse
every entry, discarding unusable ones. -/
def parseBoxShadows (style : ComputedStyle) : List BoxShadow :=
  if style.boxShadow = "" ∨ style.boxShadow = "none" then []
  else (splitShadowValue style.boxShadow.data).filterMap (fun sh => parseSingleShadow (trimL sh))

/-- `isRenderable`: not `display:none`, not `visibility:hidden/collapse`, and
a resolved opacity greater than zero (a NaN opacity compares false). -/
def isRenderable (style : ComputedStyle) : Bool :=
  if style.display = "none" then false
  else if style.visibility = "hidden" ∨ style.visibility = "collapse" then false
  else
    match jsParseFloatL style.opacity.data with
    | some op => 0 < op
    | none => false

/-! ## The DOM model and the tree snapshotter -/

/-- A measured bounding rectangle (`getBoundingClientRect`); `right` and
`bottom` are the derived `left + width` / `top + height` of a `DOMRect`. -/
structure Rect where
  left : ℚ
  top : ℚ
  width : ℚ
  height : ℚ
deriving DecidableEq

/-- `DOMRect.right`. -/
def Rect.right (r : Rect) : ℚ :=
  r.left + r.width

/-- `DOMRect.bottom`. -/
def Rect.bottom (r : Rect) : ℚ :=
  r.top + r.height

/-- A snapshot of the live styled DOM tree: an element carries its tag name
(upper-case, as in the DOM), its `id` attribute (empty when absent), its
`class` attribute, its measured rectangle, its resolved computed style and its
child nodes; a text child carries its character data together with the
per-character rectangles that `Range.getBoundingClientRect` reports. -/
inductive Dom where
  | element (tagName idAttr className : String) (rect : Rect) (style : ComputedStyle)
      (children : List Dom)
  | textChild (content : String) (charRects : List Rect)

/-- `getBoundingClientRect` of an element handle (a text node is never used
as an element handle; it gets the degenerate zero rectangle). -/
def domRect : Dom → Rect
  | .element _ _ _ r _ _ => r
  | .textChild _ _ => ⟨0, 0, 0, 0⟩

mutual
/-- `Node.textContent`: the concatenated text data of the whole subtree. -/
def domTextContent : Dom → String
  | .element _ _ _ _ _ children => domTextContentList children
  | .textChild content _ => content

/-- `Node.textContent` over a child list. -/
def domTextContentList : List Dom → String
  | [] => ""
  | d :: rest => domTextContent d ++ domTextContentList rest
end

/-- The intermediate node tree (`SimpleNode` of the source). -/
inductive SimpleNode where
  | box (id tagName : String) (x y width height opacity : ℚ) (className : Option String)
      (background : Option Fill) (borderRadius : BorderRadius) (borders : Option BorderSet)
      (shadows : List BoxShadow) (overflowHidden : Bool) (children : List SimpleNode)
  | text (id tagName : String) (x y width height opacity : ℚ) (className : Option String)
      (payload : TextPayload)
  | icon (id tagName : String) (x y width height opacity : ℚ) (className : Option String)
      (iconName color svgPath viewBox : String)

/-- `IGNORED_TAGS`. -/
def ignoredTags : List String :=
  ["SCRIPT", "STYLE", "META", "TITLE", "LINK", "NOSCRIPT"]

/-- ASCII `String.prototype.toLowerCase`. -/
def lowerStr (s : String) : String :=
  String.mk (s.data.map lowerChar)

/-- `element.classList.contains(token)`: the whitespace-separated class list
of the `class` attribute contains the token. -/
def classListContains (className token : String) : Bool :=
  (wordsOf className.data).any (fun w => w == token.data)

/-- `MATERIAL_SYMBOLS_PATHS`: glyph name to (path data, view box). -/
def materialSymbolsPaths : List (String × String × String) :=
  [("dashboard", "M13 9V3h8v6h-8zm-2 0H3V3h8v6zm2 2h8v10h-8V11zm-2 0v10H3V11h8z", "0 0 24 24"),
   ("calendar_month", "M9 11H7v2h2v-2zm4 0h-2v2h2v-2zm4 0h-2v2h2v-2zm2-7h-1V2h-2v2H8V2H6v2H5c-1.11 0-1.99.9-1.99 2L3 20c0 1.1.89 2 2 2h14c1.1 0 2-.9 2-2V6c0-1.1-.9-2-2-2zm0 16H5V9h14v11z", "0 0 24 24"),
   ("bed", "M7 13c1.66 0 3-1.34 3-3S8.66 7 7 7s-3 1.34-3 3 1.34 3 3 3zm12-6h-8v7H3V5H1v15h2v-3h18v3h2v-9c0-2.21-1.79-4-4-4z", "0 0 24 24"),
   ("bar_chart", "M5 9.2h3V19H5V9.2zM10.6 5h2.8v14h-2.8V5zm5.6 8H19v6h-2.8v-6z", "0 0 24 24"),
   ("settings", "M19.14 12.94c.04-.3.06-.61.06-.94 0-.32-.02-.64-.07-.94l2.03-1.58c.18-.14.23-.41.12-.61l-1.92-3.32c-.12-.22-.37-.29-.59-.22l-2.39.96c-.5-.38-1.03-.7-1.62-.94l-.36-2.54c-.04-.24-.24-.41-.48-.41h-3.84c-.24 0-.43.17-.47.41l-.36 2.54c-.59.24-1.13.57-1.62.94l-2.39-.96c-.22-.08-.47 0-.59.22L2.74 8.87c-.12.21-.08.47.12.61l2.03 1.58c-.05.3-.09.63-.09.94s.02.64.07.94l-2.03 1.58c-.18.14-.23.41-.12.61l1.92 3.32c.12.22.37.29.59.22l2.39-.96c.5.38 1.03.7 1.62.94l.36 2.54c.05.24.24.41.48.41h3.84c.24 0 .44-.17.47-.41l.36-2.54c.59-.24 1.13-.56 1.62-.94l2.39.96c.22.08.47 0 .59-.22l1.92-3.32c.12-.22.07-.47-.12-.61l-2.01-1.58zM12 15.6c-1.98 0-3.6-1.62-3.6-3.6s1.62-3.6 3.6-3.6 3.6 1.62 3.6 3.6-1.62 3.6-3.6 3.6z", "0 0 24 24"),
   ("help_center", "M19 3H5c-1.1 0-2 .9-2 2v14c0 1.1.9 2 2 2h14c1.1 0 2-.9 2-2V5c0-1.1-.9-2-2-2zm-7 15h-2v-2h2v2zm1.07-7.75l-.9.92C11.45 11.9 11 12.5 11 14h-2v-.5c0-1.1.45-2.1 1.17-2.83l1.24-1.26c.37-.36.59-.86.59-1.41 0-1.1-.9-2-2-2s-2 .9-2 2H6c0-2.21 1.79-4 4-4s4 1.79 4 4c0 .88-.36 1.68-.93 2.25z", "0 0 24 24"),
   ("logout", "M17 7l-1.41 1.41L18.17 11H8v2h10.17l-2.58 2.58L17 17l5-5zM4 5h8V3H4c-1.1 0-2 .9-2 2v14c0 1.1.9 2 2 2h8v-2H4V5z", "0 0 24 24"),
   ("search", "M15.5 14h-.79l-.28-.27C15.41 12.59 16 11.11 16 9.5 16 5.91 13.09 3 9.5 3S3 5.91 3 9.5 5.91 16 9.5 16c1.61 0 3.09-.59 4.23-1.57l.27.28v.79l5 4.99L20.49 19l-4.99-5zm-6 0C7.01 14 5 11.99 5 9.5S7.01 5 9.5 5 14 7.01 14 9.5 11.99 14 9.5 14z", "0 0 24 24"),
   ("expand_more", "M16.59 8.59L12 13.17 7.41 8.59 6 10l6 6 6-6z", "0 0 24 24"),
   ("add", "M19 13h-6v6h-2v-6H5v-2h6V5h2v6h6v2z", "0 0 24 24"),
   ("edit", "M3 17.25V21h3.75L17.81 9.94l-3.75-3.75L3 17.25zM20.71 7.04c.39-.39.39-1.02 0-1.41l-2.34-2.34c-.39-.39-1.02-.39-1.41 0l-1.83 1.83 3.75 3.75 1.83-1.83z", "0 0 24 24"),
   ("content_copy", "M16 1H4c-1.1 0-2 .9-2 2v14h2V3h12V1zm3 4H8c-1.1 0-2 .9-2 2v14c0 1.1.9 2 2 2h11c1.1 0 2-.9 2-2V7c0-1.1-.9-2-2-2zm0 16H8V7h11v14z", "0 0 24 24"),
   ("delete", "M6 19c0 1.1.9 2 2 2h8c1.1 0 2-.9 2-2V7H6v12zM19 4h-3.5l-1-1h-5l-1 1H5v2h14V4z", "0 0 24 24"),
   ("chevron_left", "M15.41 7.41L14 6l-6 6 6 6 1.41-1.41L10.83 12z", "0 0 24 24"),
   ("chevron_right", "M10 6L8.59 7.41 13.17 12l-4.58 4.59L10 18l6-6z", "0 0 24 24")]

/-- Key lookup in `MATERIAL_SYMBOLS_PATHS` (exact, case-sensitive). -/
def lookupIconData (name : String) : Option (String × String) :=
  (materialSymbolsPaths.find? (fun e => e.1 == name)).map (fun e => e.2)

/-- `createIconNode`: resolve the trimmed text content against the glyph
table; unmapped names (with a console diagnostic) and zero-sized rectangles
produce no node. -/
def createIconNode (tagName className : String) (rect : Rect) (style : ComputedStyle)
    (textContent : String) (rootRect : Rect) (counter : Nat) : Option SimpleNode × Nat :=
  let iconName := jsTrim textContent
  match lookupIconData iconName with
  | none => (none, counter)
  | some pv =>
    if rect.width = 0 ∨ rect.height = 0 then (none, counter)
    else
      let c := parseColor style.color
      let opacity := clampNumber (jsParseFloatL style.opacity.data) 1
      (some (.icon ("icon-" ++ toString counter) (lowerStr tagName)
          (rect.left - rootRect.left) (rect.top - rootRect.top) rect.width rect.height opacity
          (if className = "" then none else some className)
          iconName c.color pv.1 pv.2), counter + 1)

/-- An emitted visual line: its substring and its aggregated bounding box,
stored with all the `DOMRect`-like fields the source constructs. -/
structure SegRect where
  left : ℚ
  top : ℚ
  right : ℚ
  bottom : ℚ
  width : ℚ
  height : ℚ
deriving DecidableEq

/-- A (substring, box) line segment. -/
structure LineSeg where
  text : List Char
  rect : SegRect
deriving DecidableEq

/-- Pair every character with its probed rectangle (missing probes degrade to
the zero rectangle, which the scanner skips). -/
def pairCharRects : List Char → List Rect → List (Char × Rect)
  | [], _ => []
  | c :: cs, [] => (c, ⟨0, 0, 0, 0⟩) :: pairCharRects cs []
  | c :: cs, r :: rs => (c, r) :: pairCharRects cs rs

/-- The running state of the visual-line scanner: the established line top,
the accumulated characters of the current line (reversed), and the aggregate
left/top/right/bottom bounds.  `none` models the `currentTop === null` state
with infinite aggregate bounds. -/
def splitLinesGo : List (Char × Rect) → Option (ℚ × List Char × ℚ × ℚ × ℚ × ℚ) → List LineSeg
  | [], none => []
  | [], some (_, buf, l, t, r, b) =>
    [⟨buf.reverse, ⟨l, t, r, b, max 0 (r - l), max 0 (b - t)⟩⟩]
  | (c, rc) :: rest, st =>
    if rc.width = 0 ∨ rc.height = 0 then
      -- invalid probe: skip for aggregation, keep accumulating the slice
      match st with
      | none => splitLinesGo rest none
      | some (top, buf, l, t, r, b) => splitLinesGo rest (some (top, c :: buf, l, t, r, b))
    else
      match st with
      | none => splitLinesGo rest (some (rc.top, [c], rc.left, rc.top, rc.right, rc.bottom))
      | some (top, buf, l, t, r, b) =>
        if 1 / 2 < |rc.top - top| then
          ⟨buf.reverse, ⟨l, t, r, b, max 0 (r - l), max 0 (b - t)⟩⟩ ::
            splitLinesGo rest (some (rc.top, [c], rc.left, rc.top, rc.right, rc.bottom))
        else
          splitLinesGo rest
            (some (top, c :: buf, min l rc.left, min t rc.top, max r rc.right, max b rc.bottom))

/-- `splitTextByVisualLines`: probe every character rectangle in order and
split whenever the probed top leaves the 0.5-unit tolerance of the line's
established top. -/
def splitTextByVisualLines (content : List Char) (charRects : List Rect) : List LineSeg :=
  splitLinesGo (pairCharRects content charRects) none

/-- The text nodes produced from the line segments of one DOM text child. -/
def textNodesOfSegs (tagName className : String) (style : ComputedStyle) (rootRect : Rect)
    (opacity : ℚ) (color : String) (colorOpacity fontSize : ℚ) (fontFamily : String)
    (lineHeight letterSpacing : ℚ) (textAnchor : String) :
    List LineSeg → Nat → List SimpleNode × Nat
  | [], counter => ([], counter)
  | seg :: rest, counter =>
    if trimL seg.text = [] then
      textNodesOfSegs tagName className style rootRect opacity color colorOpacity fontSize
        fontFamily lineHeight letterSpacing textAnchor rest counter
    else if seg.rect.width = 0 ∨ seg.rect.height = 0 then
      textNodesOfSegs tagName className style rootRect opacity color colorOpacity fontSize
        fontFamily lineHeight letterSpacing textAnchor rest counter
    else
      let xPos :=
        if textAnchor = "middle" then seg.rect.left - rootRect.left + seg.rect.width / 2
        else if textAnchor = "end" then seg.rect.right - rootRect.left
        else seg.rect.left - rootRect.left
      let baselineOffset := (seg.rect.height - fontSize) / 2 + fontSize * 0.85
      let yPos := seg.rect.top - rootRect.top + baselineOffset
      let node : SimpleNode :=
        .text ("text-" ++ toString counter) (lowerStr tagName) xPos yPos
          seg.rect.width seg.rect.height opacity
          (if className = "" then none else some className)
          ⟨String.mk seg.text, color, colorOpacity, fontFamily, fontSize, style.fontWeight,
            style.fontStyle, letterSpacing, lineHeight, textAnchor⟩
      let r := textNodesOfSegs tagName className style rootRect opacity color colorOpacity
        fontSize fontFamily lineHeight letterSpacing textAnchor rest (counter + 1)
      (node :: r.1, r.2)

/-- The whitespace collapse `replace(/\s+/g, ' ')`: every maximal whitespace
run becomes a single space. -/
def collapseWsL : List Char → List Char
  | [] => []
  | c :: rest =>
    if isRegexSpace c then
      let pr := grabWhile isRegexSpace rest
      ' ' :: collapseWsL pr.2
    else c :: collapseWsL rest
termination_by s => s.length
decreasing_by
  all_goals simp only [List.length_cons]
  all_goals try omega
  all_goals
    have := grabWhile_snd_length_le isRegexSpace cs
    omega

/-- The per-text-child loop of `collectTextNodes`. -/
def collectTextGo (tagName className : String) (style : ComputedStyle) (rootRect : Rect)
    (opacity : ℚ) : List Dom → Nat → List SimpleNode × Nat
  | [], counter => ([], counter)
  | .element _ _ _ _ _ _ :: rest, counter =>
    collectTextGo tagName className style rootRect opacity rest counter
  | .textChild content charRects :: rest, counter =>
    if trimL (collapseWsL content.data) = [] then
      collectTextGo tagName className style rootRect opacity rest counter
    else
        let c := parseColor style.color
        let fontSize := parsePx style.fontSize 16
        let fontFamily := sanitizeFontFamily style.fontFamily
        let lineHeight := parseLineHeight style.lineHeight fontSize
        let letterSpacing := if style.letterSpacing = "normal" then 0 else parsePx style.letterSpacing 0
        let textAnchor := toTextAnchor style.textAlign
        let segs := splitTextByVisualLines content.data charRects
        let r1 := textNodesOfSegs tagName className style rootRect opacity c.color c.opacity
          fontSize fontFamily lineHeight letterSpacing textAnchor segs counter
        let r2 := collectTextGo tagName className style rootRect opacity rest r1.2
        (r1.1 ++ r2.1, r2.2)

/-- `collectTextNodes`: for every direct text child whose whitespace-collapsed
content is nonempty, split it into visual lines and emit one text node per
usable line. -/
def collectTextNodes (children : List Dom) (tagName className : String) (style : ComputedStyle)
    (rootRect : Rect) (counter : Nat) : List SimpleNode × Nat :=
  let opacity := clampNumber (jsParseFloatL style.opacity.data) 1
  collectTextGo tagName className style rootRect opacity children counter

mutual
/-- `createNodeFromElement`: the zero-size check, the renderability check
(skipped when `allowHidden` is set), the icon short-circuit, and otherwise a
box node collecting this element's text lines followed by its recursively
snapshotted element children — each child receiving the same `allowHidden`
flag. -/
def createNodeFromElement (element : Dom) (rootRect : Rect) (allowHidden : Bool)
    (counter : Nat) : Option SimpleNode × Nat :=
  match element with
  | .textChild _ _ => (none, counter)
  | .element tagName idAttr className rect style children =>
    if rect.width = 0 ∨ rect.height = 0 then (none, counter)
    else if ¬allowHidden ∧ ¬isRenderable style then (none, counter)
    else if classListContains className "material-symbols-outlined" then
      createIconNode tagName className rect style
        (domTextContent (.element tagName idAttr className rect style children)) rootRect counter
    else
      let idc : String × Nat :=
        if idAttr ≠ "" then (idAttr, counter)
        else (lowerStr tagName ++ "-" ++ toString counter, counter + 1)
      let opacity := clampNumber (jsParseFloatL style.opacity.data) 1
      let background := parseFill style
      let borderRadius := parseBorderRadius style
      let borders := parseBorders style
      let shadows := parseBoxShadows style
      let overflowHidden :=
        style.overflow = "hidden" ∨ style.overflowX = "hidden" ∨ style.overflowY = "hidden"
      let tc := collectTextNodes children tagName className style rootRect idc.2
      let ec := snapshotChildren children rootRect allowHidden tc.2
      (some (.box idc.1 (lowerStr tagName) (rect.left - rootRect.left) (rect.top - rootRect.top)
          rect.width rect.height opacity (if className = "" then none else some className)
          background borderRadius borders shadows overflowHidden (tc.1 ++ ec.1)), ec.2)

/-- The element-children loop of `createNodeFromElement`: text children are
not elements, ignored tags are skipped, and the same `allowHidden` flag is
propagated down the tree. -/
def snapshotChildren (children : List Dom) (rootRect : Rect) (allowHidden : Bool)
    (counter : Nat) : List SimpleNode × Nat :=
  match children with
  | [] => ([], counter)
  | child :: rest =>
    match child with
    | .textChild _ _ => snapshotChildren rest rootRect allowHidden counter
    | .element tagName _ _ _ _ _ =>
      if ignoredTags.contains tagName then snapshotChildren rest rootRect allowHidden counter
      else
        let r1 := createNodeFromElement child rootRect allowHidden counter
        let r2 := snapshotChildren rest rootRect allowHidden r1.2
        match r1.1 with
        | some n => (n :: r2.1, r2.2)
        | none => r2
end

/-! ## The document emitter -/

/-- The host's `Math.cos` / `Math.sin`: fixed deterministic functions of the
JavaScript engine, abstracted as a parameter of the emitter. -/
structure JsMath where
  cos : ℚ → ℚ
  sin : ℚ → ℚ

/-- The per-request render context: accumulated definition markup and the
gradient / filter identifier counters. -/
structure RenderContext where
  defs : List String
  gradientIndex : Nat
  filterIndex : Nat
deriving DecidableEq

/-- `escapeAttribute`: replace `&` by `&amp;`, then `"` by `&quot;`. -/
def escapeAttribute (value : String) : String :=
  String.mk (jsReplaceChar '"' (toL "&quot;") (jsReplaceChar '&' (toL "&amp;") value.data))

/-- `escapeText`: replace `&` by `&amp;`, then `<` by `&lt;`, then `>` by
`&gt;`. -/
def escapeText (value : String) : String :=
  String.mk (jsReplaceChar '>' (toL "&gt;")
    (jsReplaceChar '<' (toL "&lt;") (jsReplaceChar '&' (toL "&amp;") value.data)))

/-- `Math.min(r, width / 2, height / 2)`: the corner-radius clamp applied by
`roundedRectPath` to each declared radius. -/
def clampCorner (r w h : ℚ) : ℚ :=
  min (min r (w / 2)) (h / 2)

/-- `roundedRectPath`: the rounded-rectangle path with each corner radius
clamped by `clampCorner`. -/
def roundedRectPath (x y width height : ℚ) (radii : BorderRadius) : String :=
  let tl := clampCorner radii.topLeft width height
  let tr := clampCorner radii.topRight width height
  let br := clampCorner radii.bottomRight width height
  let bl := clampCorner radii.bottomLeft width height
  String.intercalate " "
    ["M " ++ formatNumber (x + tl) ++ " " ++ formatNumber y,
     "H " ++ formatNumber (x + width - tr),
     "Q " ++ formatNumber (x + width) ++ " " ++ formatNumber y ++ " " ++
       formatNumber (x + width) ++ " " ++ formatNumber (y + tr),
     "V " ++ formatNumber (y + height - br),
     "Q " ++ formatNumber (x + width) ++ " " ++ formatNumber (y + height) ++ " " ++
       formatNumber (x + width - br) ++ " " ++ formatNumber (y + height),
     "H " ++ formatNumber (x + bl),
     "Q " ++ formatNumber x ++ " " ++ formatNumber (y + height) ++ " " ++
       formatNumber x ++ " " ++ formatNumber (y + height - bl),
     "V " ++ formatNumber (y + tl),
     "Q " ++ formatNumber x ++ " " ++ formatNumber y ++ " " ++
       formatNumber (x + tl) ++ " " ++ formatNumber y,
     "Z"]

/-- `applyAlpha`: re-express a `#rrggbb…` color with an explicit alpha as an
`rgba(r, g, b, a)` string; other color strings pass through. -/
def applyAlpha (hexColor : String) (alpha : ℚ) : String :=
  if headSat (fun c => c = '#') hexColor.data ∧ 7 ≤ hexColor.length then
    let r := jsParseInt16 ((hexColor.data.drop 1).take 2)
    let g := jsParseInt16 ((hexColor.data.drop 3).take 2)
    let b := jsParseInt16 ((hexColor.data.drop 5).take 2)
    String.mk (toL "rgba(" ++ jsNumToString (r.map (fun z => (z : ℚ))) ++ toL ", " ++
      jsNumToString (g.map (fun z => (z : ℚ))) ++ toL ", " ++
      jsNumToString (b.map (fun z => (z : ℚ))) ++ toL ", " ++ qToJsDecimal alpha ++ [')'])
  else hexColor

/-- `resolveStroke`: a stroke attribute string when the four sides agree in
width, color and opacity and the common width is nonzero; the empty string
otherwise. -/
def resolveStroke (borders : Option BorderSet) : String :=
  match borders with
  | none => ""
  | some bs =>
    let uniformWidth :=
      bs.right.width = bs.top.width ∧ bs.bottom.width = bs.top.width ∧ bs.left.width = bs.top.width
    let uniformColor :=
      bs.right.color = bs.top.color ∧ bs.bottom.color = bs.top.color ∧ bs.left.color = bs.top.color
    let uniformOpacity :=
      bs.right.opacity = bs.top.opacity ∧ bs.bottom.opacity = bs.top.opacity ∧
        bs.left.opacity = bs.top.opacity
    if ¬(uniformWidth ∧ uniformColor ∧ uniformOpacity) then ""
    else if bs.top.width = 0 then ""
    else
      let strokeColor :=
        if bs.top.opacity = 1 then bs.top.color else applyAlpha bs.top.color bs.top.opacity
      "stroke=\"" ++ strokeColor ++ "\" stroke-width=\"" ++ formatNumber bs.top.width ++
        "\" shape-rendering=\"geometricPrecision\""

/-- `resolveShadows`: register one drop-shadow filter definition for the
non-inset shadows (if any) and return its identifier. -/
def resolveShadows (shadows : List BoxShadow) (context : RenderContext) :
    Option String × RenderContext :=
  let usable := shadows.filter (fun sh => !sh.inset)
  if usable.isEmpty then (none, context)
  else
    let id := "shadow-" ++ toString context.filterIndex
    let shadowContent := String.join (usable.map (fun sh =>
      "<feDropShadow dx=\"" ++ formatNumber sh.offsetX ++ "\" dy=\"" ++
        formatNumber sh.offsetY ++ "\" stdDeviation=\"" ++
        formatNumber (max sh.blur 0 / 2) ++ "\" flood-color=\"" ++ sh.color ++
        "\" flood-opacity=\"" ++ formatNumber sh.opacity ++ "\" />"))
    (some id,
      { context with
        defs := context.defs ++
          ["<filter id=\"" ++ id ++
            "\" x=\"-50%\" y=\"-50%\" width=\"200%\" height=\"200%\" color-interpolation-filters=\"sRGB\">" ++
            shadowContent ++ "</filter>"],
        filterIndex := context.filterIndex + 1 })

/-- `gradientVector`: the unit-box gradient direction derived from the angle
via `cos` / `sin`. -/
def gradientVector (m : JsMath) (angle : ℚ) : ℚ × ℚ × ℚ × ℚ :=
  let rad := angle * mathPI / 180
  let x := m.cos rad
  let y := m.sin rad
  ((1 - x) / 2, (1 - y) / 2, (1 + x) / 2, (1 + y) / 2)

/-- `ensureGradient`: register a linear-gradient definition and return its
identifier. -/
def ensureGradient (m : JsMath) (gradient : LinearGradientFill) (context : RenderContext) :
    String × RenderContext :=
  let id := "gradient-" ++ toString context.gradientIndex
  let v := gradientVector m gradient.angle
  let stops := String.join (gradient.stops.map (fun st =>
    "<stop offset=\"" ++ formatPercentage st.offset ++ "\" stop-color=\"" ++ st.color ++
      "\" stop-opacity=\"" ++ formatNumber st.opacity ++ "\" />"))
  (id,
    { context with
      defs := context.defs ++
        ["<linearGradient id=\"" ++ id ++ "\" gradientUnits=\"objectBoundingBox\" x1=\"" ++
          formatNumber v.1 ++ "\" y1=\"" ++ formatNumber v.2.1 ++ "\" x2=\"" ++
          formatNumber v.2.2.1 ++ "\" y2=\"" ++ formatNumber v.2.2.2 ++ "\">" ++
          stops ++ "</linearGradient>"],
      gradientIndex := context.gradientIndex + 1 })

/-- `resolveFill`: `transparent` for no fill, the color (or its
`applyAlpha` form) for a solid fill, a `url(#…)` reference for a gradient. -/
def resolveFill (m : JsMath) (fill : Option Fill) (context : RenderContext) :
    String × RenderContext :=
  match fill with
  | none => ("transparent", context)
  | some (.solid color opacity) =>
    if opacity = 1 then (color, context) else (applyAlpha color opacity, context)
  | some (.linearGradient g) =>
    let r := ensureGradient m g context
    ("url(#" ++ r.1 ++ ")", r.2)

/-- `ensureClipPath`: register a clip-path definition reusing the rounded-rect
path (the identifier counter is shared with the filter counter). -/
def ensureClipPath (x y width height : ℚ) (radii : BorderRadius) (context : RenderContext) :
    String × RenderContext :=
  let id := "clip-" ++ toString context.filterIndex
  let d := roundedRectPath x y width height radii
  ("clip-" ++ toString context.filterIndex,
    { context with
      defs := context.defs ++
        ["<clipPath id=\"" ++ id ++ "\" clipPathUnits=\"userSpaceOnUse\"><path d=\"" ++ d ++
          "\" /></clipPath>"],
      filterIndex := context.filterIndex + 1 })

/-- `normalizeFontWeight`. -/
def normalizeFontWeight (weight : String) : String :=
  let w := lowerStr (jsTrim weight)
  if w = "100" ∨ w = "200" ∨ w = "300" ∨ w = "400" ∨ w = "500" ∨ w = "600" ∨ w = "700" ∨
      w = "800" ∨ w = "900" then
    "font-weight=\"" ++ w ++ "\""
  else if w = "bold" then "font-weight=\"700\""
  else if w = "normal" then "font-weight=\"400\""
  else "font-weight=\"" ++ escapeAttribute weight ++ "\""

/-- `renderTextNode`. -/
def renderTextNode (tagName : String) (x y opacity : ℚ) (className : Option String)
    (text : TextPayload) : String :=
  let combinedOpacity := opacity * text.opacity
  let opacityAttr :=
    if combinedOpacity ≠ 1 then " fill-opacity=\"" ++ formatNumber combinedOpacity ++ "\"" else ""
  let letterSpacingAttr :=
    if text.letterSpacing ≠ 0 then " letter-spacing=\"" ++ formatNumber text.letterSpacing ++ "\""
    else ""
  let classAttr :=
    match className with
    | some c => " class=\"" ++ escapeAttribute c ++ "\""
    | none => ""
  let dataTagAttr := " data-tag=\"" ++ escapeAttribute tagName ++ "\""
  let fontWeightAttr := normalizeFontWeight text.fontWeight
  "<text x=\"" ++ formatNumber x ++ "\" y=\"" ++ formatNumber y ++ "\" font-family=\"" ++
    escapeAttribute text.fontFamily ++ "\" font-size=\"" ++ formatNumber text.fontSize ++
    "\" " ++ fontWeightAttr ++ " font-style=\"" ++ escapeAttribute text.fontStyle ++
    "\" text-anchor=\"" ++ text.textAnchor ++
    "\" dominant-baseline=\"alphabetic\" xml:space=\"preserve\" fill=\"" ++ text.color ++ "\"" ++
    opacityAttr ++ letterSpacingAttr ++ classAttr ++ dataTagAttr ++ ">" ++
    escapeText text.content ++ "</text>"

/-- `Number(s)` for the view-box fields (`none` models `NaN`): full-string
decimal conversion, the empty (or all-whitespace) string converting to 0. -/
def jsNumber (s : List Char) : Option ℚ :=
  let t := trimL s
  if t = [] then some 0
  else
    let signRest : ℚ × List Char :=
      match t with
      | '-' :: r => (-1, r)
      | '+' :: r => (1, r)
      | r => (1, r)
    let (ip, r2) := grabWhile Char.isDigit signRest.2
    let fracRest : Option (List Char) × List Char :=
      match r2 with
      | '.' :: r =>
        let fr := grabWhile Char.isDigit r
        (some fr.1, fr.2)
      | r => (none, r)
    let fp := fracRest.1.getD []
    if (ip = [] ∧ fp = []) ∨ fracRest.2 ≠ [] then none
    else some (signRest.1 * ((digitsVal ip : ℚ) + (digitsVal fp : ℚ) / (10 : ℚ) ^ fp.length))

/-- `viewBoxParts[i] || 24`: a missing, NaN or zero view-box field falls back
to 24. -/
def orDefault24 (v : Option (Option ℚ)) : ℚ :=
  match v with
  | none => 24
  | some none => 24
  | some (some q) => if q = 0 then 24 else q

/-- `renderIconNode`: scale the glyph uniformly into the allocated box,
centered, and emit a transformed group around the glyph path. -/
def renderIconNode (tagName : String) (x y width height opacity : ℚ)
    (className : Option String) (iconName color svgPath viewBox : String) : String :=
  let opacityAttr := if opacity ≠ 1 then " opacity=\"" ++ formatNumber opacity ++ "\"" else ""
  let classAttr :=
    match className with
    | some c => " class=\"" ++ escapeAttribute c ++ "\""
    | none => ""
  let dataTagAttr := " data-tag=\"" ++ escapeAttribute tagName ++ "\""
  let dataIconAttr := " data-icon=\"" ++ escapeAttribute iconName ++ "\""
  let viewBoxParts := (splitOnChar ' ' viewBox.data).map jsNumber
  let origWidth := orDefault24 (viewBoxParts.get? 2)
  let origHeight := orDefault24 (viewBoxParts.get? 3)
  let scale := min (width / origWidth) (height / origHeight)
  let scaledWidth := origWidth * scale
  let scaledHeight := origHeight * scale
  let offsetX := x + (width - scaledWidth) / 2
  let offsetY := y + (height - scaledHeight) / 2
  "<g transform=\"translate(" ++ formatNumber offsetX ++ "," ++ formatNumber offsetY ++
    ") scale(" ++ formatNumber scale ++ ")\"" ++ opacityAttr ++ classAttr ++ dataTagAttr ++
    dataIconAttr ++ "><path d=\"" ++ svgPath ++ "\" fill=\"" ++ color ++ "\"/></g>"

mutual
/-- `renderNode`: dispatch on the node kind. -/
def renderNode (m : JsMath) (node : SimpleNode) (context : RenderContext) :
    String × RenderContext :=
  match node with
  | .text _ tagName x y _ _ opacity className payload =>
    (renderTextNode tagName x y opacity className payload, context)
  | .icon _ tagName x y width height opacity className iconName color svgPath viewBox =>
    (renderIconNode tagName x y width height opacity className iconName color svgPath viewBox,
      context)
  | .box _ tagName x y width height opacity className background borderRadius borders shadows
      overflowHidden children =>
    let path := roundedRectPath x y width height borderRadius
    let fr := resolveFill m background context
    let strokeAttr := resolveStroke borders
    let sr := resolveShadows shadows fr.2
    let opacityAttr := if opacity ≠ 1 then " opacity=\"" ++ formatNumber opacity ++ "\"" else ""
    let classAttr :=
      match className with
      | some c => " class=\"" ++ escapeAttribute c ++ "\""
      | none => ""
    let dataTagAttr := " data-tag=\"" ++ escapeAttribute tagName ++ "\""
    let cr : Option String × RenderContext :=
      if overflowHidden then
        let c := ensureClipPath x y width height borderRadius sr.2
        (some c.1, c.2)
      else (none, sr.2)
    let clipAttr :=
      match cr.1 with
      | some cid => " clip-path=\"url(#" ++ cid ++ ")\""
      | none => ""
    let chr := renderChildren m children cr.2
    let filterString :=
      match sr.1 with
      | some fid => " filter=\"url(#" ++ fid ++ ")\""
      | none => ""
    let strokeString := if strokeAttr ≠ "" then " " ++ strokeAttr else ""
    let shapeClassAttr :=
      match className with
      | some c => " class=\"" ++ escapeAttribute c ++ "\""
      | none => ""
    ("<g" ++ opacityAttr ++ classAttr ++ dataTagAttr ++ clipAttr ++ ">" ++
      "<path d=\"" ++ path ++ "\" fill=\"" ++ fr.1 ++ "\"" ++ strokeString ++ filterString ++
      shapeClassAttr ++ " />" ++ chr.1 ++ "</g>", chr.2)

/-- `node.children.map(child => renderNode(child, context)).join('')` with the
shared mutable context threaded left to right. -/
def renderChildren (m : JsMath) (children : List SimpleNode) (context : RenderContext) :
    String × RenderContext :=
  match children with
  | [] => ("", context)
  | n :: rest =>
    let r1 := renderNode m n context
    let r2 := renderChildren m rest r1.2
    (r1.1 ++ r2.1, r2.2)
end

/-- `createStyleDef`: wrap verbatim CSS in a CDATA style block, escaping any
`]]>` occurrence. -/
def createStyleDef (css : String) : String :=
  "<style type=\"text/css\"><![CDATA[" ++
    String.mk (replaceSubAll ']' (toL "]>") (toL "]]]]><![CDATA[>") css.data) ++ "]]></style>"

/-- The options record of the entry point. -/
structure HtmlToSvgOptions where
  inlineCss : Option String := none

/-- `htmlToSvg`: the conversion entry point.  A missing root handle, a root
measuring zero in either dimension, or a snapshot pass yielding no root node
throw (modelled by `Except.error` carrying only the message); otherwise the
snapshot tree is rendered with a fresh `RenderContext` and wrapped in the
document envelope.  The module-global `nodeCounter` is the threaded `Nat`. -/
def htmlToSvg (m : JsMath) (rootElement : Option Dom) (options : HtmlToSvgOptions)
    (counter : Nat) : Except String String × Nat :=
  match rootElement with
  | none => (.error "A root element is required to generate SVG.", counter)
  | some root =>
    let rootRect := domRect root
    if rootRect.width = 0 ∨ rootRect.height = 0 then
      (.error "Root element has no measurable layout.", counter)
    else
      let st := createNodeFromElement root rootRect true counter
      match st.1 with
      | none => (.error "Unable to capture layout from the provided HTML.", st.2)
      | some simpleTree =>
        let context : RenderContext := ⟨[], 0, 0⟩
        let rc := renderNode m simpleTree context
        let cssBlock := options.inlineCss.map jsTrim
        let styleDef : Option String :=
          match cssBlock with
          | some cb => if cb ≠ "" then some (createStyleDef cb) else none
          | none => none
        let defsEntries :=
          match styleDef with
          | some sd => sd :: rc.2.defs
          | none => rc.2.defs
        let defsContent :=
          if defsEntries.isEmpty then "" else "<defs>" ++ String.join defsEntries ++ "</defs>"
        let width := formatNumber rootRect.width
        let height := formatNumber rootRect.height
        (.ok ("<?xml version=\"1.0\" encoding=\"UTF-8\"?><svg xmlns=\"http://www.w3.org/2000/svg\" width=\"" ++
          width ++ "\" height=\"" ++ height ++ "\" viewBox=\"0 0 " ++ width ++ " " ++ height ++
          "\" role=\"presentation\">" ++ defsContent ++ rc.1 ++ "</svg>"), st.2)

/-! ## General-purpose lemmas about the string machinery -/

theorem str_data_append (a b : String) : (a ++ b).data = a.data ++ b.data := by
  cases a
  cases b
  rfl

theorem append_ne_empty_left {a : String} (b : String) (h : a.data ≠ []) : a ++ b ≠ "" := by
  intro he
  have hd := congrArg String.data he
  rw [str_data_append] at hd
  exact h (List.append_eq_nil.mp hd).1

theorem expandChars_append (f : Char → List Char) :
    ∀ a b : List Char, expandChars f (a ++ b) = expandChars f a ++ expandChars f b := by
  intro a b
  induction a with
  | nil => rfl
  | cons c cs ih => simp [expandChars, ih]

theorem grab_exact (p : Char → Bool) (xs ys : List Char) (h1 : ∀ c ∈ xs, p c = true)
    (h2 : headSat p ys = false) : grabWhile p (xs ++ ys) = (xs, ys) := by
  induction xs with
  | nil =>
    cases ys with
    | nil => rfl
    | cons y yr =>
      simp only [headSat] at h2
      simp [grabWhile, h2]
  | cons x xr ih =>
    have hx : p x = true := h1 x (by simp)
    have ih' := ih (fun c hc => h1 c (by simp [hc]))
    simp only [List.cons_append, grabWhile, hx, if_true]
    rw [show xr.append ys = xr ++ ys from rfl, ih']

theorem dropWhile_headSat {p : Char → Bool} {s : List Char} (h : headSat p s = false) :
    s.dropWhile p = s := by
  cases s with
  | nil => rfl
  | cons c cs =>
    simp only [headSat] at h
    simp [List.dropWhile, h]

theorem trimL_eq_self {s : List Char} (h1 : headSat isRegexSpace s = false)
    (h2 : headSat isRegexSpace s.reverse = false) : trimL s = s := by
  unfold trimL
  rw [dropWhile_headSat h1, dropWhile_headSat h2, List.reverse_reverse]

theorem stringMk_data (l : List Char) : (String.mk l).data = l := rfl

theorem stringMk_ne_empty {l : List Char} (h : l ≠ []) : String.mk l ≠ "" := by
  intro he
  exact h (congrArg String.data he)

/-! ## Character-class lemmas -/

theorem space_not_digit {c : Char} (h : isRegexSpace c = true) : c.isDigit = false := by
  simp only [isRegexSpace, decide_eq_true_eq] at h
  rcases h with h | h | h | h | h | h <;> subst h <;> decide

theorem digit_not_space {c : Char} (h : c.isDigit = true) : isRegexSpace c = false := by
  by_cases hs : isRegexSpace c = true
  · rw [space_not_digit hs] at h
    exact absurd h (by simp)
  · simpa using hs

theorem space_not_hex {c : Char} (h : isRegexSpace c = true) : isHexDigit c = false := by
  simp only [isRegexSpace, decide_eq_true_eq] at h
  rcases h with h | h | h | h | h | h <;> subst h <;> decide

theorem hex_not_space {c : Char} (h : isHexDigit c = true) : isRegexSpace c = false := by
  by_cases hs : isRegexSpace c = true
  · rw [space_not_hex hs] at h
    exact absurd h (by simp)
  · simpa using hs

theorem digitDot_not_space {c : Char} (h : isDigitDot c = true) : isRegexSpace c = false := by
  have h' : c.isDigit = true ∨ c = '.' := by simpa [isDigitDot] using h
  rcases h' with h' | h'
  · exact digit_not_space h'
  · subst h'
    decide

theorem ciIs_cases {c t : Char} (h : ciIs c t = true) : c = t ∨ c = upperChar t := by
  simpa [ciIs] using h

theorem hex_not_ci_r {c : Char} (h : isHexDigit c = true) : ciIs c 'r' = false := by
  by_cases hr : ciIs c 'r' = true
  · rcases ciIs_cases hr with h' | h' <;> subst h' <;> simp_all <;> revert h <;> decide
  · simpa using hr

theorem digit_ne_dash {c : Char} (h : c.isDigit = true) : c ≠ '-' := by
  intro he
  subst he
  exact absurd h (by decide)

theorem digit_ne_plus {c : Char} (h : c.isDigit = true) : c ≠ '+' := by
  intro he
  subst he
  exact absurd h (by decide)

theorem signSplit_of_ne {c : Char} {r : List Char} (h1 : c ≠ '-') (h2 : c ≠ '+') :
    signSplit (c :: r) = (1, c :: r) := by
  unfold signSplit
  split
  · rename_i heq
    injection heq with he _
    exact absurd he h1
  · rename_i heq
    injection heq with he _
    exact absurd he h2
  · rfl

/-! ## C2 machinery: canonical rgb()/rgba() and hex inputs -/

/-- Spec-side: the characters of an optional fractional part (`.` plus the
fraction digits when present). -/
def fracChars : Option (List Char) → List Char
  | some f => '.' :: f
  | none => []

/-- Spec-side: the optional `, <alpha>` tail of a canonical `rgba()` input and
the closing parenthesis; the alpha numeral is an integer digit group with an
optional fractional digit group. -/
def rgbaTail : Option (List Char × List Char × List Char × Option (List Char)) → List Char
  | none => [')']
  | some (w5, w6, aInt, fracOpt) =>
    w5 ++ ',' :: (w6 ++ ((aInt ++ fracChars fracOpt) ++ [')']))

/-- Spec-side: a canonical `rgb()`/`rgba()` color string with three integer
channel groups, optional whitespace around the separating commas, and an
optional decimal alpha component. -/
def rgbaInput (hasA : Bool) (d1 w1 w2 d2 w3 w4 d3 : List Char)
    (alphaTail : Option (List Char × List Char × List Char × Option (List Char))) : String :=
  String.mk ('r' :: 'g' :: 'b' ::
    ((if hasA then ['a'] else []) ++ '(' ::
      (d1 ++ (w1 ++ ',' :: (w2 ++ (d2 ++ (w3 ++ ',' :: (w4 ++ (d3 ++ rgbaTail alphaTail)))))))))

/-- Spec-side: the rational value denoted by the decimal alpha numeral. -/
def alphaSpecVal (aInt : List Char) (fracOpt : Option (List Char)) : ℚ :=
  (digitsVal aInt : ℚ) +
    (match fracOpt with
     | some f => (digitsVal f : ℚ) / (10 : ℚ) ^ f.length
     | none => 0)

/-- Spec-side: the opacity of a canonical rgba input (1 when absent). -/
def alphaSpecOf : Option (List Char × List Char × List Char × Option (List Char)) → ℚ
  | none => 1
  | some (_, _, aInt, fracOpt) => alphaSpecVal aInt fracOpt

/-- Spec-side (from the claim): the six RGB hex digits of a 3/4/6/8-digit hex
group — short forms double each of the first three digits, long forms keep the
first six. -/
def specHexRgb (ds : List Char) : List Char :=
  if ds.length = 3 ∨ ds.length = 4 then expandChars (fun c => [c, c]) (ds.take 3)
  else ds.take 6

/-- Spec-side (from the claim): the opacity extracted from a hex group — the
doubled fourth digit over 255 for `#RGBA`, the last two digits over 255 for
`#RRGGBBAA`, and 1 otherwise. -/
def specHexOpacity (ds : List Char) : ℚ :=
  if ds.length = 4 then 17 * (hexVal (ds.drop 3) : ℚ) / 255
  else if ds.length = 8 then (hexVal (ds.drop 6) : ℚ) / 255
  else 1

theorem hex_ne_dash {c : Char} (h : isHexDigit c = true) : c ≠ '-' := by
  intro he
  subst he
  exact absurd h (by decide)

theorem hex_ne_plus {c : Char} (h : isHexDigit c = true) : c ≠ '+' := by
  intro he
  subst he
  exact absurd h (by decide)

theorem hex_ne_x {c : Char} (h : isHexDigit c = true) : ¬(c = 'x' ∨ c = 'X') := by
  intro he
  rcases he with he | he <;> subst he <;> exact absurd h (by decide)

theorem hexDigitVal_digitChar : ∀ v, v < 16 → hexDigitVal (Nat.digitChar v) = v := by
  decide

theorem isHex_digitChar : ∀ v, v < 16 → isHexDigit (Nat.digitChar v) = true := by
  decide

theorem hexVal_pair (x y : Char) : hexVal [x, y] = hexDigitVal x * 16 + hexDigitVal y := by
  simp [hexVal, List.foldl]

theorem natToHex_small {v : Nat} (h : v < 16) : natToHex v = [Nat.digitChar v] := by
  unfold natToHex
  rw [dif_pos h]

theorem padTwo_natToHex {v : Nat} (h : v ≤ 255) :
    padTwo (natToHex v) = [Nat.digitChar (v / 16), Nat.digitChar (v % 16)] := by
  by_cases hs : v < 16
  · rw [natToHex_small hs]
    have h16 : v / 16 = 0 := Nat.div_eq_of_lt hs
    have hm : v % 16 = v := Nat.mod_eq_of_lt hs
    rw [h16, hm]
    rfl
  · have hd : v / 16 < 16 := by omega
    rw [natToHex, dif_neg hs, natToHex_small hd]
    rfl

theorem hexVal_padTwo_natToHex {v : Nat} (h : v ≤ 255) :
    hexVal (padTwo (natToHex v)) = v := by
  rw [padTwo_natToHex h, hexVal_pair,
    hexDigitVal_digitChar (v / 16) (by omega),
    hexDigitVal_digitChar (v % 16) (by omega)]
  omega

theorem rgbToHex_decodes (r g b : Nat) (hr : r ≤ 255) (hg : g ≤ 255) (hb : b ≤ 255) :
    ∃ h1 h2 h3 h4 h5 h6 : Char,
      (rgbToHex r g b).data = ['#', h1, h2, h3, h4, h5, h6] ∧
      hexVal [h1, h2] = r ∧ hexVal [h3, h4] = g ∧ hexVal [h5, h6] = b := by
  refine ⟨Nat.digitChar (r / 16), Nat.digitChar (r % 16), Nat.digitChar (g / 16),
    Nat.digitChar (g % 16), Nat.digitChar (b / 16), Nat.digitChar (b % 16), ?_, ?_, ?_, ?_⟩
  · show ('#' :: padTwo (natToHex r) ++ padTwo (natToHex g) ++ padTwo (natToHex b)) = _
    rw [padTwo_natToHex hr, padTwo_natToHex hg, padTwo_natToHex hb]
    rfl
  · rw [← padTwo_natToHex hr]
    exact hexVal_padTwo_natToHex hr
  · rw [← padTwo_natToHex hg]
    exact hexVal_padTwo_natToHex hg
  · rw [← padTwo_natToHex hb]
    exact hexVal_padTwo_natToHex hb

theorem grabWhile_none {p : Char → Bool} {s : List Char} (h : headSat p s = false) :
    grabWhile p s = ([], s) := by
  cases s with
  | nil => rfl
  | cons c cs =>
    simp only [headSat] at h
    simp [grabWhile, h]

theorem grabWhile_all {p : Char → Bool} :
    ∀ {s : List Char}, (∀ c ∈ s, p c = true) → grabWhile p s = (s, []) := by
  intro s
  induction s with
  | nil => intro _; rfl
  | cons c cs ih =>
    intro h
    simp only [grabWhile, h c (by simp), if_true]
    rw [ih (fun x hx => h x (by simp [hx]))]

theorem strip0x_hexpair (a b : Char) (hb : isHexDigit b = true) : strip0x [a, b] = [a, b] := by
  show (if a = '0' ∧ (b = 'x' ∨ b = 'X') then [] else a :: b :: []) = [a, b]
  rw [if_neg (fun hc => hex_ne_x hb hc.2)]

theorem jsParseInt16_hexpair (a b : Char) (ha : isHexDigit a = true) (hb : isHexDigit b = true) :
    jsParseInt16 [a, b] = some ((hexVal [a, b] : ℤ)) := by
  unfold jsParseInt16
  rw [grabWhile_none (by simp [headSat, hex_not_space ha])]
  simp only []
  rw [signSplit_of_ne (hex_ne_dash ha) (hex_ne_plus ha)]
  simp only []
  rw [strip0x_hexpair a b hb,
    grabWhile_all (by intro c hc; rcases List.mem_pair.mp hc with h | h <;> subst h <;> assumption)]
  simp only []
  rw [if_neg (by simp)]
  simp

theorem matchRgbaAt_none_of_head {c : Char} (cs : List Char) (h : ciIs c 'r' = false) :
    matchRgbaAt (c :: cs) = none := by
  cases cs with
  | nil => rfl
  | cons c2 cs2 =>
    cases cs2 with
    | nil => rfl
    | cons c3 cs3 =>
      simp only [matchRgbaAt]
      rw [if_neg (by simp [h])]

theorem searchRgba_cons (c : Char) (cs : List Char) :
    searchRgba (c :: cs) =
      match matchRgbaAt (c :: cs) with
      | some g => some g
      | none => searchRgba cs := by
  rfl

theorem searchRgba_none (s : List Char) (h : ∀ c ∈ s, ciIs c 'r' = false) :
    searchRgba s = none := by
  induction s with
  | nil => rfl
  | cons c cs ih =>
    rw [searchRgba_cons, matchRgbaAt_none_of_head cs (h c (by simp))]
    exact ih (fun x hx => h x (by simp [hx]))

theorem headSat_append_left (p : Char → Bool) (a b : List Char) (ha : a ≠ []) :
    headSat p (a ++ b) = headSat p a := by
  cases a with
  | nil => exact absurd rfl ha
  | cons c cs => rfl

theorem headSat_ws_comma (w rest : List Char) (hw : ∀ c ∈ w, isRegexSpace c = true) :
    headSat Char.isDigit (w ++ ',' :: rest) = false := by
  cases w with
  | nil => rfl
  | cons c cs =>
    simp only [List.cons_append, headSat]
    exact space_not_digit (hw c (by simp))

theorem expectCommaWs_exact (w w' rest : List Char)
    (hw : ∀ c ∈ w, isRegexSpace c = true) (hw' : ∀ c ∈ w', isRegexSpace c = true)
    (hrest : headSat isRegexSpace rest = false) :
    expectCommaWs (w ++ ',' :: (w' ++ rest)) = some rest := by
  unfold expectCommaWs
  rw [grab_exact isRegexSpace w (',' :: (w' ++ rest)) hw (by simp [headSat]; decide)]
  simp only []
  rw [grab_exact isRegexSpace w' rest hw' hrest]

theorem expectCommaWs_none_of_head {c : Char} (rest : List Char) (hs : isRegexSpace c = false)
    (hc : c ≠ ',') : expectCommaWs (c :: rest) = none := by
  unfold expectCommaWs
  rw [grabWhile_none (by simp [headSat, hs])]
  simp only []
  split
  · rename_i r heq
    injection heq with h1 _
    exact absurd h1 hc
  · rfl

theorem tryAlphaClose_rparen (rest : List Char) : tryAlphaClose (')' :: rest) = none := by
  unfold tryAlphaClose
  rw [expectCommaWs_none_of_head rest (by decide) (by decide)]

theorem tryAlphaClose_alpha (w5 w6 aChars : List Char)
    (hw5 : ∀ c ∈ w5, isRegexSpace c = true) (hw6 : ∀ c ∈ w6, isRegexSpace c = true)
    (ha : ∀ c ∈ aChars, isDigitDot c = true) (hne : aChars ≠ []) :
    tryAlphaClose (w5 ++ ',' :: (w6 ++ (aChars ++ [')']))) = some aChars := by
  unfold tryAlphaClose
  have hhead : headSat isRegexSpace (aChars ++ [')']) = false := by
    rw [headSat_append_left _ _ _ hne]
    cases aChars with
    | nil => exact absurd rfl hne
    | cons c cs =>
      simp only [headSat]
      exact digitDot_not_space (ha c (by simp))
  rw [expectCommaWs_exact w5 w6 (aChars ++ [')']) hw5 hw6 hhead]
  simp only []
  rw [grab_exact isDigitDot aChars [')'] ha (by decide)]
  simp only []
  rw [if_neg hne]

/-- The raw characters of the optional alpha capture group of a canonical
rgba input. -/
def alphaCharsOf : Option (List Char × List Char × List Char × Option (List Char)) →
    Option (List Char)
  | none => none
  | some (_, _, aInt, fr) => some (aInt ++ fracChars fr)

theorem headSat_digit_rgbaTail (al : Option (List Char × List Char × List Char × Option (List Char)))
    (hal : ∀ w5 w6 aInt fr, al = some (w5, w6, aInt, fr) → ∀ c ∈ w5, isRegexSpace c = true) :
    headSat Char.isDigit (rgbaTail al) = false := by
  cases al with
  | none => rfl
  | some t =>
    obtain ⟨w5, w6, aInt, fr⟩ := t
    exact headSat_ws_comma w5 _ (hal w5 w6 aInt fr rfl)

theorem headSat_space_digits (d rest : List Char) (hd : ∀ c ∈ d, Char.isDigit c = true)
    (hn : d ≠ []) : headSat isRegexSpace (d ++ rest) = false := by
  cases d with
  | nil => exact absurd rfl hn
  | cons c cs =>
    simp only [List.cons_append, headSat]
    exact digit_not_space (hd c (by simp))

theorem matchRgbaInner_render (d1 w1 w2 d2 w3 w4 d3 : List Char)
    (al : Option (List Char × List Char × List Char × Option (List Char)))
    (hd1 : ∀ c ∈ d1, Char.isDigit c = true) (hd1n : d1 ≠ [])
    (hd2 : ∀ c ∈ d2, Char.isDigit c = true) (hd2n : d2 ≠ [])
    (hd3 : ∀ c ∈ d3, Char.isDigit c = true) (hd3n : d3 ≠ [])
    (hw1 : ∀ c ∈ w1, isRegexSpace c = true) (hw2 : ∀ c ∈ w2, isRegexSpace c = true)
    (hw3 : ∀ c ∈ w3, isRegexSpace c = true) (hw4 : ∀ c ∈ w4, isRegexSpace c = true)
    (hal : ∀ w5 w6 aInt fr, al = some (w5, w6, aInt, fr) →
      (∀ c ∈ w5, isRegexSpace c = true) ∧ (∀ c ∈ w6, isRegexSpace c = true) ∧
      (∀ c ∈ aInt, Char.isDigit c = true) ∧ aInt ≠ [] ∧
      (∀ f, fr = some f → ∀ c ∈ f, Char.isDigit c = true)) :
    matchRgbaInner
        (d1 ++ (w1 ++ ',' :: (w2 ++ (d2 ++ (w3 ++ ',' :: (w4 ++ (d3 ++ rgbaTail al))))))) =
      some ⟨d1, d2, d3, alphaCharsOf al⟩ := by
  unfold matchRgbaInner
  rw [grab_exact Char.isDigit d1 _ hd1 (headSat_ws_comma w1 _ hw1)]
  simp only []
  rw [if_neg hd1n,
    expectCommaWs_exact w1 w2 _ hw1 hw2 (headSat_space_digits d2 _ hd2 hd2n)]
  simp only []
  rw [grab_exact Char.isDigit d2 _ hd2 (headSat_ws_comma w3 _ hw3)]
  simp only []
  rw [if_neg hd2n,
    expectCommaWs_exact w3 w4 _ hw3 hw4 (headSat_space_digits d3 _ hd3 hd3n)]
  simp only []
  rw [grab_exact Char.isDigit d3 _ hd3
    (headSat_digit_rgbaTail al (fun w5 w6 aInt fr he => (hal w5 w6 aInt fr he).1))]
  simp only []
  rw [if_neg hd3n]
  cases al with
  | none =>
    rw [show rgbaTail none = [')'] from rfl, tryAlphaClose_rparen]
    rfl
  | some t =>
    obtain ⟨w5, w6, aInt, fr⟩ := t
    obtain ⟨hw5, hw6, haI, haIn, hfr⟩ := hal w5 w6 aInt fr rfl
    have hchars : ∀ c ∈ aInt ++ fracChars fr, isDigitDot c = true := by
      intro c hc
      rcases List.mem_append.mp hc with hc | hc
      · simp [isDigitDot, haI c hc]
      · cases fr with
        | none => simp [fracChars] at hc
        | some f =>
          simp only [fracChars] at hc
          rcases List.mem_cons.mp hc with hc | hc
          · subst hc
            decide
          · simp [isDigitDot, hfr f rfl c hc]
    rw [show rgbaTail (some (w5, w6, aInt, fr)) =
          w5 ++ ',' :: (w6 ++ ((aInt ++ fracChars fr) ++ [')'])) from rfl,
      tryAlphaClose_alpha w5 w6 _ hw5 hw6 hchars
        (fun he => haIn (List.append_eq_nil.mp he).1)]
    rfl

theorem matchRgbaAt_render (hasA : Bool) (d1 w1 w2 d2 w3 w4 d3 : List Char)
    (al : Option (List Char × List Char × List Char × Option (List Char)))
    (hd1 : ∀ c ∈ d1, Char.isDigit c = true) (hd1n : d1 ≠ [])
    (hd2 : ∀ c ∈ d2, Char.isDigit c = true) (hd2n : d2 ≠ [])
    (hd3 : ∀ c ∈ d3, Char.isDigit c = true) (hd3n : d3 ≠ [])
    (hw1 : ∀ c ∈ w1, isRegexSpace c = true) (hw2 : ∀ c ∈ w2, isRegexSpace c = true)
    (hw3 : ∀ c ∈ w3, isRegexSpace c = true) (hw4 : ∀ c ∈ w4, isRegexSpace c = true)
    (hal : ∀ w5 w6 aInt fr, al = some (w5, w6, aInt, fr) →
      (∀ c ∈ w5, isRegexSpace c = true) ∧ (∀ c ∈ w6, isRegexSpace c = true) ∧
      (∀ c ∈ aInt, Char.isDigit c = true) ∧ aInt ≠ [] ∧
      (∀ f, fr = some f → ∀ c ∈ f, Char.isDigit c = true)) :
    matchRgbaAt ('r' :: 'g' :: 'b' ::
      ((if hasA then ['a'] else []) ++ '(' ::
        (d1 ++ (w1 ++ ',' :: (w2 ++ (d2 ++ (w3 ++ ',' :: (w4 ++ (d3 ++ rgbaTail al))))))))) =
      some ⟨d1, d2, d3, alphaCharsOf al⟩ := by
  cases hasA with
  | false =>
    show matchRgbaAt ('r' :: 'g' :: 'b' :: '(' ::
      (d1 ++ (w1 ++ ',' :: (w2 ++ (d2 ++ (w3 ++ ',' :: (w4 ++ (d3 ++ rgbaTail al)))))))) = _
    simp only [matchRgbaAt]
    rw [if_pos (by refine ⟨by decide, by decide, by decide⟩)]
    exact matchRgbaInner_render d1 w1 w2 d2 w3 w4 d3 al hd1 hd1n hd2 hd2n hd3 hd3n
      hw1 hw2 hw3 hw4 hal
  | true =>
    show matchRgbaAt ('r' :: 'g' :: 'b' :: 'a' :: '(' ::
      (d1 ++ (w1 ++ ',' :: (w2 ++ (d2 ++ (w3 ++ ',' :: (w4 ++ (d3 ++ rgbaTail al)))))))) = _
    simp only [matchRgbaAt]
    rw [if_pos (by refine ⟨by decide, by decide, by decide⟩)]
    exact matchRgbaInner_render d1 w1 w2 d2 w3 w4 d3 al hd1 hd1n hd2 hd2n hd3 hd3n
      hw1 hw2 hw3 hw4 hal

theorem jsParseFloatL_numeral (aInt : List Char) (fracOpt : Option (List Char))
    (hI : ∀ c ∈ aInt, Char.isDigit c = true) (hIne : aInt ≠ [])
    (hF : ∀ f, fracOpt = some f → ∀ c ∈ f, Char.isDigit c = true) :
    jsParseFloatL (aInt ++ fracChars fracOpt) = some (alphaSpecVal aInt fracOpt) := by
  unfold jsParseFloatL
  rw [grabWhile_none (by
    rw [headSat_append_left _ _ _ hIne]
    cases aInt with
    | nil => exact absurd rfl hIne
    | cons c cs =>
      simp only [headSat]
      exact digit_not_space (hI c (by simp)))]
  simp only []
  have hhead : ∃ c cs, aInt = c :: cs := by
    cases aInt with
    | nil => exact absurd rfl hIne
    | cons c cs => exact ⟨c, cs, rfl⟩
  obtain ⟨c0, cs0, hcc⟩ := hhead
  have hc0 : Char.isDigit c0 = true := hI c0 (by simp [hcc])
  rw [show signSplit (aInt ++ fracChars fracOpt) = (1, aInt ++ fracChars fracOpt) by
    rw [hcc]
    exact signSplit_of_ne (digit_ne_dash hc0) (digit_ne_plus hc0)]
  simp only []
  rw [grab_exact Char.isDigit aInt (fracChars fracOpt) hI (by
    cases fracOpt with
    | none => rfl
    | some f => rfl)]
  simp only []
  cases fracOpt with
  | none =>
    simp only [fracChars]
    rw [if_neg (by simp [hIne])]
    simp only [alphaSpecVal, Option.getD, digitsVal, List.foldl, List.length_nil, pow_zero]
    norm_num
  | some f =>
    simp only [fracChars]
    rw [grabWhile_all (hF f rfl)]
    simp only []
    rw [if_neg (by simp [hIne])]
    simp only [alphaSpecVal, Option.getD]
    norm_num

theorem rgbaTail_ends (al : Option (List Char × List Char × List Char × Option (List Char))) :
    ∃ t, rgbaTail al = t ++ [')'] := by
  cases al with
  | none => exact ⟨[], rfl⟩
  | some t =>
    obtain ⟨w5, w6, aInt, fr⟩ := t
    exact ⟨w5 ++ ',' :: (w6 ++ (aInt ++ fracChars fr)), by simp [rgbaTail]⟩

theorem parseColor_rgba (hasA : Bool) (d1 w1 w2 d2 w3 w4 d3 : List Char)
    (al : Option (List Char × List Char × List Char × Option (List Char)))
    (hd1 : ∀ c ∈ d1, Char.isDigit c = true) (hd1n : d1 ≠ [])
    (hd2 : ∀ c ∈ d2, Char.isDigit c = true) (hd2n : d2 ≠ [])
    (hd3 : ∀ c ∈ d3, Char.isDigit c = true) (hd3n : d3 ≠ [])
    (hw1 : ∀ c ∈ w1, isRegexSpace c = true) (hw2 : ∀ c ∈ w2, isRegexSpace c = true)
    (hw3 : ∀ c ∈ w3, isRegexSpace c = true) (hw4 : ∀ c ∈ w4, isRegexSpace c = true)
    (hal : ∀ w5 w6 aInt fr, al = some (w5, w6, aInt, fr) →
      (∀ c ∈ w5, isRegexSpace c = true) ∧ (∀ c ∈ w6, isRegexSpace c = true) ∧
      (∀ c ∈ aInt, Char.isDigit c = true) ∧ aInt ≠ [] ∧
      (∀ f, fr = some f → ∀ c ∈ f, Char.isDigit c = true))
    (hc1 : digitsVal d1 ≤ 255) (hc2 : digitsVal d2 ≤ 255) (hc3 : digitsVal d3 ≤ 255) :
    parseColor (rgbaInput hasA d1 w1 w2 d2 w3 w4 d3 al) =
      ⟨rgbToHex (digitsVal d1) (digitsVal d2) (digitsVal d3), alphaSpecOf al⟩ := by
  unfold parseColor rgbaInput
  rw [if_neg (stringMk_ne_empty (by simp))]
  simp only [stringMk_data]
  have htrim : trimL ('r' :: 'g' :: 'b' ::
      ((if hasA then ['a'] else []) ++ '(' ::
        (d1 ++ (w1 ++ ',' :: (w2 ++ (d2 ++ (w3 ++ ',' :: (w4 ++ (d3 ++ rgbaTail al))))))))) =
      'r' :: 'g' :: 'b' ::
      ((if hasA then ['a'] else []) ++ '(' ::
        (d1 ++ (w1 ++ ',' :: (w2 ++ (d2 ++ (w3 ++ ',' :: (w4 ++ (d3 ++ rgbaTail al)))))))) := by
    apply trimL_eq_self
    · rfl
    · obtain ⟨t, ht⟩ := rgbaTail_ends al
      rw [show ('r' :: 'g' :: 'b' ::
          ((if hasA then ['a'] else []) ++ '(' ::
            (d1 ++ (w1 ++ ',' :: (w2 ++ (d2 ++ (w3 ++ ',' :: (w4 ++ (d3 ++ rgbaTail al))))))))) =
          ('r' :: 'g' :: 'b' ::
            ((if hasA then ['a'] else []) ++ '(' ::
              (d1 ++ (w1 ++ ',' :: (w2 ++ (d2 ++ (w3 ++ ',' :: (w4 ++ d3))))))) ++ t) ++ [')']
          from by rw [ht]; simp]
      rw [List.reverse_append]
      rfl
  rw [htrim]
  rw [searchRgba_cons, matchRgbaAt_render hasA d1 w1 w2 d2 w3 w4 d3 al hd1 hd1n hd2 hd2n
    hd3 hd3n hw1 hw2 hw3 hw4 hal]
  simp only []
  cases al with
  | none =>
    simp only [alphaCharsOf, alphaSpecOf, clampChannel, Nat.min_eq_right hc1,
      Nat.min_eq_right hc2, Nat.min_eq_right hc3]
  | some t =>
    obtain ⟨w5, w6, aInt, fr⟩ := t
    obtain ⟨hw5, hw6, haI, haIn, hfr⟩ := hal w5 w6 aInt fr rfl
    simp only [alphaCharsOf, alphaSpecOf, clampChannel, Nat.min_eq_right hc1,
      Nat.min_eq_right hc2, Nat.min_eq_right hc3]
    rw [jsParseFloatL_numeral aInt fr haI haIn hfr]
    rfl

theorem expandChars_double_length (l : List Char) :
    (expandChars (fun c => [c, c]) l).length = 2 * l.length := by
  induction l with
  | nil => rfl
  | cons c cs ih => simp [expandChars, ih]; omega

theorem list_len2 {l : List Char} (h : l.length = 2) : ∃ a b, l = [a, b] := by
  cases l with
  | nil => simp at h
  | cons a l1 =>
    cases l1 with
    | nil => simp at h
    | cons b l2 =>
      cases l2 with
      | nil => exact ⟨a, b, rfl⟩
      | cons c l3 => simp at h

theorem list_len3 {l : List Char} (h : l.length = 3) : ∃ a b c, l = [a, b, c] := by
  cases l with
  | nil => simp at h
  | cons a l1 =>
    obtain ⟨b, c, hbc⟩ := list_len2 (by simpa using h)
    exact ⟨a, b, c, by rw [hbc]⟩

theorem list_len4 {l : List Char} (h : l.length = 4) : ∃ a b c d, l = [a, b, c, d] := by
  cases l with
  | nil => simp at h
  | cons a l1 =>
    obtain ⟨b, c, d, hbc⟩ := list_len3 (by simpa using h)
    exact ⟨a, b, c, d, by rw [hbc]⟩

theorem headSat_hash_hex (ds : List Char) (hds : ∀ c ∈ ds, isHexDigit c = true)
    (hne : ds ≠ []) : headSat isRegexSpace ('#' :: ds).reverse = false := by
  rw [List.reverse_cons, headSat_append_left _ _ _ (by simpa using hne)]
  cases hr : ds.reverse with
  | nil => exact absurd (by simpa using hr) hne
  | cons c cs =>
    have hc : c ∈ ds := by
      rw [← List.mem_reverse, hr]
      simp
    simp only [headSat]
    exact hex_not_space (hds c hc)

theorem hexFullMatch_some (ds : List Char) (hds : ∀ c ∈ ds, isHexDigit c = true)
    (hlen : ds.length = 3 ∨ ds.length = 4 ∨ ds.length = 6 ∨ ds.length = 8) :
    hexFullMatch ('#' :: ds) = some ds := by
  simp only [hexFullMatch]
  rw [if_pos ⟨List.all_eq_true.mpr hds, hlen⟩]

theorem parseColor_hex (ds : List Char) (hds : ∀ c ∈ ds, isHexDigit c = true)
    (hlen : ds.length = 3 ∨ ds.length = 4 ∨ ds.length = 6 ∨ ds.length = 8) :
    parseColor (String.mk ('#' :: ds)) =
      ⟨String.mk ('#' :: specHexRgb ds), specHexOpacity ds⟩ := by
  have hne : ds ≠ [] := by
    intro he
    subst he
    simp at hlen
  unfold parseColor
  rw [if_neg (stringMk_ne_empty (by simp))]
  simp only [stringMk_data]
  rw [trimL_eq_self (by rfl) (headSat_hash_hex ds hds hne)]
  rw [searchRgba_none _ (by
    intro c hc
    rcases List.mem_cons.mp hc with hc | hc
    · subst hc
      decide
    · exact hex_not_ci_r (hds c hc))]
  simp only []
  rw [hexFullMatch_some ds hds hlen]
  simp only []
  rcases hlen with h3 | h4 | h6 | h8
  · obtain ⟨a, b, c, rfl⟩ := list_len3 h3
    rw [show normalizeHex [a, b, c] = [a, a, b, b, c, c, 'f', 'f'] from rfl]
    rw [show jsParseInt16 (([a, a, b, b, c, c, 'f', 'f'] : List Char).drop 6) =
        some ((255 : ℤ)) from by
      rw [show (([a, a, b, b, c, c, 'f', 'f'] : List Char).drop 6) = ['f', 'f'] from rfl,
        jsParseInt16_hexpair 'f' 'f' (by decide) (by decide)]
      decide]
    simp only [specHexRgb, specHexOpacity, RgbaColor.mk.injEq]
    norm_num [expandChars]
  · obtain ⟨a, b, c, d, rfl⟩ := list_len4 h4
    have hd : isHexDigit d = true := hds d (by simp)
    rw [show normalizeHex [a, b, c, d] = [a, a, b, b, c, c, d, d] from rfl,
      show (([a, a, b, b, c, c, d, d] : List Char).drop 6) = [d, d] from rfl,
      jsParseInt16_hexpair d d hd hd]
    simp only [specHexRgb, specHexOpacity, RgbaColor.mk.injEq]
    refine ⟨rfl, ?_⟩
    norm_num
    rw [hexVal_pair, show hexVal [d] = hexDigitVal d from by simp [hexVal, List.foldl]]
    push_cast
    ring
  · rw [show normalizeHex ds = ds ++ ['f', 'f'] from by
      unfold normalizeHex
      rw [if_neg (by omega), if_neg (by omega), if_pos h6]]
    rw [if_pos (show (ds ++ ['f', 'f']).length = 8 from by simp [h6])]
    rw [show (6 : ℕ) = ds.length from h6.symm, List.take_left, List.drop_left,
      jsParseInt16_hexpair 'f' 'f' (by decide) (by decide)]
    simp only [specHexRgb, specHexOpacity, RgbaColor.mk.injEq]
    constructor
    · rw [if_neg (by omega), List.take_of_length_le (by omega)]
    · rw [if_neg (by omega), if_neg (by omega)]
      with_unfolding_all decide
  · rw [show normalizeHex ds = ds from by
      unfold normalizeHex
      rw [if_neg (by omega), if_neg (by omega), if_neg (by omega)]]
    rw [if_pos h8]
    obtain ⟨x, y, hxy⟩ := list_len2 (show (ds.drop 6).length = 2 from by simp [h8])
    have hmx : x ∈ ds.drop 6 := by
      rw [hxy]
      simp
    have hmy : y ∈ ds.drop 6 := by
      rw [hxy]
      simp
    have hx : isHexDigit x = true := hds x (List.mem_of_mem_drop hmx)
    have hy : isHexDigit y = true := hds y (List.mem_of_mem_drop hmy)
    rw [hxy, jsParseInt16_hexpair x y hx hy]
    simp only [specHexRgb, specHexOpacity, RgbaColor.mk.injEq]
    constructor
    · rw [if_neg (by omega)]
    · rw [if_neg (by omega), if_pos h8, hxy]
      push_cast
      ring

theorem specHexRgb_length (ds : List Char)
    (hlen : ds.length = 3 ∨ ds.length = 4 ∨ ds.length = 6 ∨ ds.length = 8) :
    (specHexRgb ds).length = 6 := by
  unfold specHexRgb
  rcases hlen with h | h | h | h
  · rw [if_pos (Or.inl h), expandChars_double_length, List.length_take]
    omega
  · rw [if_pos (Or.inr h), expandChars_double_length, List.length_take]
    omega
  · rw [if_neg (by omega), List.length_take]
    omega
  · rw [if_neg (by omega), List.length_take]
    omega

/-- **C2** (confirmed).  `parseColor` normalizes every canonical
`rgb()`/`rgba()` input with 0–255 integer channels to the six-hex-digit
`rgbToHex` of those very channels, with opacity the value of the decimal
alpha numeral (1 when absent); every 3/4/6/8-digit hex input yields `#`
followed by the six RGB digits the claim prescribes (short digits doubled,
long forms truncated after six) with the claimed alpha (doubled fourth digit
or last byte over 255, else 1); `rgbToHex` output decodes back to the input
channels; and empty input is opaque black. -/
theorem C2_parseColor_normalization :
    (∀ (hasA : Bool) (d1 w1 w2 d2 w3 w4 d3 : List Char)
        (al : Option (List Char × List Char × List Char × Option (List Char))),
      (∀ c ∈ d1, Char.isDigit c = true) → d1 ≠ [] →
      (∀ c ∈ d2, Char.isDigit c = true) → d2 ≠ [] →
      (∀ c ∈ d3, Char.isDigit c = true) → d3 ≠ [] →
      (∀ c ∈ w1, isRegexSpace c = true) → (∀ c ∈ w2, isRegexSpace c = true) →
      (∀ c ∈ w3, isRegexSpace c = true) → (∀ c ∈ w4, isRegexSpace c = true) →
      (∀ w5 w6 aInt fr, al = some (w5, w6, aInt, fr) →
        (∀ c ∈ w5, isRegexSpace c = true) ∧ (∀ c ∈ w6, isRegexSpace c = true) ∧
        (∀ c ∈ aInt, Char.isDigit c = true) ∧ aInt ≠ [] ∧
        (∀ f, fr = some f → ∀ c ∈ f, Char.isDigit c = true)) →
      digitsVal d1 ≤ 255 → digitsVal d2 ≤ 255 → digitsVal d3 ≤ 255 →
      parseColor (rgbaInput hasA d1 w1 w2 d2 w3 w4 d3 al) =
        ⟨rgbToHex (digitsVal d1) (digitsVal d2) (digitsVal d3), alphaSpecOf al⟩) ∧
    (∀ r g b : Nat, r ≤ 255 → g ≤ 255 → b ≤ 255 →
      ∃ h1 h2 h3 h4 h5 h6 : Char,
        (rgbToHex r g b).data = ['#', h1, h2, h3, h4, h5, h6] ∧
        hexVal [h1, h2] = r ∧ hexVal [h3, h4] = g ∧ hexVal [h5, h6] = b) ∧
    (∀ ds : List Char, (∀ c ∈ ds, isHexDigit c = true) →
      (ds.length = 3 ∨ ds.length = 4 ∨ ds.length = 6 ∨ ds.length = 8) →
      parseColor (String.mk ('#' :: ds)) =
        ⟨String.mk ('#' :: specHexRgb ds), specHexOpacity ds⟩ ∧
      (specHexRgb ds).length = 6) ∧
    parseColor "" = ⟨"#000000", 1⟩ := by
  refine ⟨?_, rgbToHex_decodes, ?_, by with_unfolding_all decide⟩
  · intro hasA d1 w1 w2 d2 w3 w4 d3 al hd1 hd1n hd2 hd2n hd3 hd3n hw1 hw2 hw3 hw4 hal
      hc1 hc2 hc3
    exact parseColor_rgba hasA d1 w1 w2 d2 w3 w4 d3 al hd1 hd1n hd2 hd2n hd3 hd3n
      hw1 hw2 hw3 hw4 hal hc1 hc2 hc3
  · intro ds h1 h2
    exact ⟨parseColor_hex ds h1 h2, specHexRgb_length ds h2⟩

/-- Witness: the claim's own examples, plus empty input. -/
theorem C2_parseColor_normalization_witness :
    parseColor "rgba(255,0,0,0.5)" = ⟨"#ff0000", 1/2⟩ ∧
    parseColor "#ff000080" = ⟨"#ff0000", 128/255⟩ ∧
    parseColor "" = ⟨"#000000", 1⟩ := by
  obtain ⟨hrgba, _, hhex, hempty⟩ := C2_parseColor_normalization
  refine ⟨?_, ?_, hempty⟩
  · have h := hrgba true ['2', '5', '5'] [] [] ['0'] [] [] ['0']
      (some ([], [], ['0'], some ['5']))
      (by decide) (by decide) (by decide) (by decide) (by decide) (by decide)
      (by decide) (by decide) (by decide) (by decide)
      (by
        intro w5 w6 aInt fr he
        simp only [Option.some.injEq, Prod.mk.injEq] at he
        obtain ⟨h5, h6, hA, hF⟩ := he
        subst h5
        subst h6
        subst hA
        subst hF
        refine ⟨by decide, by decide, by decide, by decide, ?_⟩
        intro f hf
        injection hf with hf
        subst hf
        decide)
      (by decide) (by decide) (by decide)
    rw [show ("rgba(255,0,0,0.5)" : String) =
        rgbaInput true ['2', '5', '5'] [] [] ['0'] [] [] ['0']
          (some ([], [], ['0'], some ['5'])) from by with_unfolding_all decide]
    rw [h]
    with_unfolding_all decide
  · have h := hhex ['f', 'f', '0', '0', '0', '0', '8', '0'] (by decide) (by decide)
    rw [show ("#ff000080" : String) =
        String.mk ('#' :: ['f', 'f', '0', '0', '0', '0', '8', '0']) from by
      with_unfolding_all decide]
    rw [h.1]
    with_unfolding_all decide

/-! ## C8: corner-radius clamping in `roundedRectPath` -/

/-- **C8** (confirmed).  For every box geometry and every declared corner
radius, the radius used by `roundedRectPath` is `min(declared, width/2,
height/2)`: the emitted path is unchanged by pre-clamping all four radii (so
the path depends only on the clamped values), and the clamped value never
exceeds half of either box dimension, for all rational geometries including
degenerate widths and heights. -/
theorem C8_roundedRectPath_radius_clamped :
    ∀ (x y width height : ℚ) (radii : BorderRadius),
      roundedRectPath x y width height radii =
        roundedRectPath x y width height
          ⟨clampCorner radii.topLeft width height, clampCorner radii.topRight width height,
            clampCorner radii.bottomRight width height,
            clampCorner radii.bottomLeft width height⟩ ∧
      ∀ r : ℚ, clampCorner r width height = min r (min (width / 2) (height / 2)) ∧
        clampCorner r width height ≤ width / 2 ∧ clampCorner r width height ≤ height / 2 := by
  intro x y width height radii
  have key : ∀ r : ℚ, clampCorner (clampCorner r width height) width height =
      clampCorner r width height := by
    intro r
    unfold clampCorner
    have h1 : min (min r (width / 2)) (height / 2) ≤ width / 2 :=
      le_trans (min_le_left _ _) (min_le_right _ _)
    have h2 : min (min r (width / 2)) (height / 2) ≤ height / 2 := min_le_right _ _
    rw [min_eq_left h1, min_eq_left h2]
  constructor
  · simp only [roundedRectPath, key]
  · intro r
    refine ⟨min_assoc _ _ _, le_trans (min_le_left _ _) (min_le_right _ _), min_le_right _ _⟩

/-! ## C7: uniform-border stroke resolution -/

/-- **C7** (confirmed).  For border sets with non-negative side widths (the
invariant `parseBorders` guarantees: a kept side has positive width and the
fallback side has width 0), `resolveStroke` emits a stroke attribute exactly
when the set is present, all four sides agree in width, color and opacity,
and the common width is positive; any asymmetry in those attributes, or a
missing set, yields the empty string (no stroke attribute at all). -/
theorem C7_resolveStroke_iff_uniform :
    ∀ borders : Option BorderSet,
      (∀ bs : BorderSet, borders = some bs →
        0 ≤ bs.top.width ∧ 0 ≤ bs.right.width ∧ 0 ≤ bs.bottom.width ∧ 0 ≤ bs.left.width) →
      (resolveStroke borders ≠ "" ↔
        ∃ bs : BorderSet, borders = some bs ∧
          bs.right.width = bs.top.width ∧ bs.bottom.width = bs.top.width ∧
          bs.left.width = bs.top.width ∧
          bs.right.color = bs.top.color ∧ bs.bottom.color = bs.top.color ∧
          bs.left.color = bs.top.color ∧
          bs.right.opacity = bs.top.opacity ∧ bs.bottom.opacity = bs.top.opacity ∧
          bs.left.opacity = bs.top.opacity ∧
          0 < bs.top.width) := by
  intro borders hnn
  cases borders with
  | none => simp [resolveStroke]
  | some bs =>
    have hw := hnn bs rfl
    by_cases huni : bs.right.width = bs.top.width ∧ bs.bottom.width = bs.top.width ∧
        bs.left.width = bs.top.width ∧
        bs.right.color = bs.top.color ∧ bs.bottom.color = bs.top.color ∧
        bs.left.color = bs.top.color ∧
        bs.right.opacity = bs.top.opacity ∧ bs.bottom.opacity = bs.top.opacity ∧
        bs.left.opacity = bs.top.opacity
    · obtain ⟨u1, u2, u3, u4, u5, u6, u7, u8, u9⟩ := huni
      by_cases hz : bs.top.width = 0
      · have hres : resolveStroke (some bs) = "" := by
          simp only [resolveStroke]
          rw [if_neg, if_pos hz]
          simp [u1, u2, u3, u4, u5, u6, u7, u8, u9]
        rw [hres]
        simp only [ne_eq, not_true_eq_false, false_iff, not_exists]
        intro bs' hcon
        obtain ⟨he, _, _, _, _, _, _, _, _, _, hpos⟩ := hcon
        injection he with he
        subst he
        exact absurd hz (ne_of_gt hpos)
      · have hres : resolveStroke (some bs) =
            "stroke=\"" ++
              (if bs.top.opacity = 1 then bs.top.color
               else applyAlpha bs.top.color bs.top.opacity) ++
              "\" stroke-width=\"" ++ formatNumber bs.top.width ++
              "\" shape-rendering=\"geometricPrecision\"" := by
          simp only [resolveStroke]
          rw [if_neg, if_neg hz]
          simp [u1, u2, u3, u4, u5, u6, u7, u8, u9]
        rw [hres]
        constructor
        · intro _
          exact ⟨bs, rfl, u1, u2, u3, u4, u5, u6, u7, u8, u9,
            lt_of_le_of_ne hw.1 (Ne.symm hz)⟩
        · intro _
          exact append_ne_empty_left _ (by simp [str_data_append])
    · have hres : resolveStroke (some bs) = "" := by
        simp only [resolveStroke]
        rw [if_pos]
        intro hcon
        exact huni ⟨hcon.1.1, hcon.1.2.1, hcon.1.2.2, hcon.2.1.1, hcon.2.1.2.1, hcon.2.1.2.2,
          hcon.2.2.1, hcon.2.2.2.1, hcon.2.2.2.2⟩
      rw [hres]
      simp only [ne_eq, not_true_eq_false, false_iff, not_exists]
      intro bs' hcon
      obtain ⟨he, h1, h2, h3, h4, h5, h6, h7, h8, h9, _⟩ := hcon
      injection he with he
      subst he
      exact huni ⟨h1, h2, h3, h4, h5, h6, h7, h8, h9⟩

/-- Witness for C7 at a concrete uniform border set. -/
theorem C7_resolveStroke_iff_uniform_witness :
    resolveStroke (some ⟨⟨2, "#ff0000", 1, "solid"⟩, ⟨2, "#ff0000", 1, "solid"⟩,
      ⟨2, "#ff0000", 1, "solid"⟩, ⟨2, "#ff0000", 1, "solid"⟩⟩) ≠ "" :=
  (C7_resolveStroke_iff_uniform
      (some ⟨⟨2, "#ff0000", 1, "solid"⟩, ⟨2, "#ff0000", 1, "solid"⟩,
        ⟨2, "#ff0000", 1, "solid"⟩, ⟨2, "#ff0000", 1, "solid"⟩⟩)
      (by intro bs hbs; injection hbs with hbs; subst hbs; refine ⟨?_, ?_, ?_, ?_⟩ <;> norm_num)).mpr
    ⟨_, rfl, rfl, rfl, rfl, rfl, rfl, rfl, rfl, rfl, rfl, by norm_num⟩

/-! ## C9: markup escaping (corrected) -/

/-- Modelled from the claim's words: the per-character escaping of text
content — exactly the three reserved markup characters. -/
def textEscChar (c : Char) : List Char :=
  if c = '&' then toL "&amp;"
  else if c = '<' then toL "&lt;"
  else if c = '>' then toL "&gt;"
  else [c]

/-- The per-character escaping actually applied to attribute values: the
ampersand and the double quote only. -/
def attrEscChar (c : Char) : List Char :=
  if c = '&' then toL "&amp;"
  else if c = '"' then toL "&quot;"
  else [c]

theorem escapeText_expand (l : List Char) :
    jsReplaceChar '>' (toL "&gt;") (jsReplaceChar '<' (toL "&lt;")
      (jsReplaceChar '&' (toL "&amp;") l)) = expandChars textEscChar l := by
  induction l with
  | nil => rfl
  | cons c cs ih =>
    simp only [jsReplaceChar] at *
    have hcons : expandChars (fun x => if x = '&' then toL "&amp;" else [x]) (c :: cs) =
        (if c = '&' then toL "&amp;" else [c]) ++
          expandChars (fun x => if x = '&' then toL "&amp;" else [x]) cs := rfl
    rw [hcons, expandChars_append, expandChars_append, ih]
    by_cases h1 : c = '&'
    · subst h1
      rfl
    · by_cases h2 : c = '<'
      · subst h2
        rfl
      · by_cases h3 : c = '>'
        · subst h3
          rfl
        · simp [textEscChar, expandChars, h1, h2, h3]

theorem escapeAttr_expand (l : List Char) :
    jsReplaceChar '"' (toL "&quot;") (jsReplaceChar '&' (toL "&amp;") l) =
      expandChars attrEscChar l := by
  induction l with
  | nil => rfl
  | cons c cs ih =>
    simp only [jsReplaceChar] at *
    have hcons : expandChars (fun x => if x = '&' then toL "&amp;" else [x]) (c :: cs) =
        (if c = '&' then toL "&amp;" else [c]) ++
          expandChars (fun x => if x = '&' then toL "&amp;" else [x]) cs := rfl
    rw [hcons, expandChars_append, ih]
    by_cases h1 : c = '&'
    · subst h1
      rfl
    · by_cases h2 : c = '"'
      · subst h2
        rfl
      · simp [attrEscChar, expandChars, h1, h2]

/-- **C9** (corrected).  Text content is escaped character by character for
exactly the three reserved markup characters `&`, `<`, `>`; attribute values,
however, are escaped for exactly `&` and the double quote — `<` and `>` are
left untouched in attribute values, contrary to the claim. -/
theorem C9_escaping_amended :
    ∀ s : String,
      escapeText s = String.mk (expandChars textEscChar s.data) ∧
      escapeAttribute s = String.mk (expandChars attrEscChar s.data) := by
  intro s
  constructor
  · simp only [escapeText, escapeText_expand]
  · simp only [escapeAttribute, escapeAttr_expand]

/-- Counterexample to C9 as stated: an attribute value containing `<` and `>`
passes through `escapeAttribute` unescaped (while the same characters in text
content are escaped). -/
theorem C9_escaping_counterexample :
    escapeAttribute "a<b>c" = "a<b>c" ∧ escapeAttribute "a<b>c" ≠ "a&lt;b&gt;c" ∧
      escapeText "a<b>c" = "a&lt;b&gt;c" := by
  refine ⟨by decide, by decide, by decide⟩

/-! ## C3: fill resolution (corrected) -/

/-- A neutral fully-resolved computed style, used to build concrete inputs. -/
def plainStyle : ComputedStyle :=
  ⟨"block", "visible", "1", "rgb(0, 0, 0)", "rgba(0, 0, 0, 0)", "none",
    "visible", "visible", "visible", "none", "16px", "Arial", "400", "normal",
    "normal", "normal", "start", "0px", "0px", "0px", "0px",
    "0px", "none", "rgb(0, 0, 0)", "0px", "none", "rgb(0, 0, 0)",
    "0px", "none", "rgb(0, 0, 0)", "0px", "none", "rgb(0, 0, 0)"⟩

/-- The fill resolution as amended: a parseable background-image gradient
always wins; otherwise the fill is null exactly when the background color is
the empty string or one of the two literal strings `rgba(0, 0, 0, 0)` /
`transparent`, and a solid fill (possibly of opacity 0) otherwise. -/
def amendedFillSpec (style : ComputedStyle) : Option Fill :=
  match parseLinearGradient style.backgroundImage with
  | some g => some (Fill.linearGradient g)
  | none =>
    if style.backgroundColor = "" ∨ style.backgroundColor = "rgba(0, 0, 0, 0)" ∨
        style.backgroundColor = "transparent" then none
    else some (Fill.solid (parseColor style.backgroundColor).color
      (parseColor style.backgroundColor).opacity)

/-- **C3** (corrected).  `parseFill` prefers a parseable background-image
gradient over any background color, and returns null exactly for the empty
background color and the two literal strings `rgba(0, 0, 0, 0)` /
`transparent`; other fully transparent colors (any `rgba(r, g, b, 0)`) yield
a solid fill of opacity 0, not null. -/
theorem C3_parseFill_amended : ∀ style : ComputedStyle, parseFill style = amendedFillSpec style := by
  intro style
  have hempty : parseLinearGradient "" = none := by decide
  have hnone : parseLinearGradient "none" = none := by decide
  simp only [parseFill, amendedFillSpec]
  have hguard : (if style.backgroundImage ≠ "" ∧ style.backgroundImage ≠ "none" then
      parseLinearGradient style.backgroundImage else none) =
      parseLinearGradient style.backgroundImage := by
    by_cases hbi : style.backgroundImage ≠ "" ∧ style.backgroundImage ≠ "none"
    · rw [if_pos hbi]
    · rw [if_neg hbi]
      push_neg at hbi
      by_cases h : style.backgroundImage = ""
      · rw [h, hempty]
      · rw [hbi h, hnone]
  rw [hguard]
  cases hg : parseLinearGradient style.backgroundImage with
  | some g => rfl
  | none =>
    by_cases hbc : style.backgroundColor = "" ∨ style.backgroundColor = "rgba(0, 0, 0, 0)" ∨
        style.backgroundColor = "transparent"
    · rw [if_pos hbc, if_neg]
      intro hcon
      rcases hbc with h | h | h
      · exact hcon.1 h
      · exact hcon.2.1 h
      · exact hcon.2.2 h
    · rw [if_neg hbc, if_pos]
      push_neg at hbc
      exact ⟨hbc.1, hbc.2.1, hbc.2.2⟩

/-- Counterexample to C3 as stated: the fully transparent background color
`rgba(255, 0, 0, 0)` (alpha 0) does not yield a null fill — `parseFill`
returns a solid fill with opacity 0. -/
theorem C3_parseFill_counterexample :
    (parseColor "rgba(255, 0, 0, 0)").opacity = 0 ∧
    parseFill { plainStyle with backgroundColor := "rgba(255, 0, 0, 0)" } =
      some (Fill.solid "#ff0000" 0) := by
  refine ⟨by with_unfolding_all decide, by with_unfolding_all decide⟩

/-! ## C1: entry-point failure conditions -/

/-- Is an `Except` result an error? -/
def exceptIsErr {ε α : Type} : Except ε α → Bool
  | .error _ => true
  | .ok _ => false

/-- Modelled from the claim's words: the conversion fails exactly when no
root handle is supplied, the root's measured width or height is zero, or the
snapshot pass yields no node for the root. -/
def conversionFails (rootElement : Option Dom) (counter : Nat) : Bool :=
  match rootElement with
  | none => true
  | some root =>
    decide ((domRect root).width = 0) || decide ((domRect root).height = 0) ||
      ((createNodeFromElement root (domRect root) true counter).1).isNone

/-- **C1** (confirmed).  `htmlToSvg` throws exactly when the root handle is
missing, the root measures zero in either dimension, or the snapshot pass
yields no node for the root; in the embedding every failure is an
`Except.error` carrying only the message, so no partial document string is
produced in any failure case. -/
theorem C1_htmlToSvg_fails_iff :
    ∀ (m : JsMath) (rootElement : Option Dom) (options : HtmlToSvgOptions) (counter : Nat),
      exceptIsErr (htmlToSvg m rootElement options counter).1 =
        conversionFails rootElement counter := by
  intro m rootElement options counter
  cases rootElement with
  | none => rfl
  | some r =>
    simp only [htmlToSvg, conversionFails]
    by_cases hz : (domRect r).width = 0 ∨ (domRect r).height = 0
    · rw [if_pos hz]
      rcases hz with h | h <;> simp [exceptIsErr, h]
    · rw [if_neg hz]
      push_neg at hz
      cases hsnap : (createNodeFromElement r (domRect r) true counter).1 with
      | none => simp [exceptIsErr, hsnap, hz.1, hz.2]
      | some t => simp [exceptIsErr, hsnap, hz.1, hz.2]

/-! ## C6: snapshot skipping (corrected) -/

/-- Modelled from the amended claim: the snapshotter produces no node exactly
for zero-sized elements, for non-renderable elements when (and only when) the
always-capture flag is off, and for icon-marked elements whose glyph name is
unmapped.  The flag an element is visited with is passed unchanged to its
descendants, so under `htmlToSvg` (which sets it for the root) no element of
the tree is ever skipped for visibility. -/
def snapshotSkips (element : Dom) (allowHidden : Bool) : Bool :=
  match element with
  | .textChild _ _ => true
  | .element tagName idAttr className rect style children =>
    decide (rect.width = 0) || decide (rect.height = 0) ||
      (!allowHidden && !isRenderable style) ||
      (classListContains className "material-symbols-outlined" &&
        (lookupIconData (jsTrim
          (domTextContent (.element tagName idAttr className rect style children)))).isNone)

/-- **C6** (corrected).  Characterization of when the snapshotter skips an
element: zero measured width or height always skips; a non-renderable style
skips only when the always-capture flag is off — and the flag is propagated
unchanged to every descendant (`createNodeFromElement` passes `allowHidden`
through `snapshotChildren`), so hidden descendants of an always-capture root
are captured, contrary to the claim's "only the traversal root" reading; an
icon-marked element with an unmapped glyph name is also skipped. -/
theorem C6_snapshot_skip_characterization :
    ∀ (element : Dom) (rootRect : Rect) (allowHidden : Bool) (counter : Nat),
      ((createNodeFromElement element rootRect allowHidden counter).1).isNone =
        snapshotSkips element allowHidden := by
  intro e rr ah c
  cases e with
  | textChild s rs => rfl
  | element tag idA cls rect style ch =>
    simp only [createNodeFromElement, snapshotSkips]
    by_cases hz : rect.width = 0 ∨ rect.height = 0
    · rw [if_pos hz]
      rcases hz with h | h <;> simp [h]
    · rw [if_neg hz]
      push_neg at hz
      by_cases hv : ¬(ah = true) ∧ ¬(isRenderable style = true)
      · rw [if_pos hv]
        simp only [Option.isNone_none, decide_eq_true_eq]
        have h1 : ah = false := by
          cases ah
          · rfl
          · exact absurd rfl hv.1
        have h2 : isRenderable style = false := by
          cases hr : isRenderable style
          · rfl
          · exact absurd hr hv.2
        simp [h1, h2, hz.1, hz.2]
      · rw [if_neg hv]
        have hvis : (!ah && !isRenderable style) = false := by
          by_cases hah : ah = true
          · simp [hah]
          · have : ah = false := by
              cases ah
              · rfl
              · exact absurd rfl hah
            subst this
            cases hr : isRenderable style
            · exact absurd ⟨by simp, by simp [hr]⟩ hv
            · simp
        cases hic : classListContains cls "material-symbols-outlined" with
        | true =>
          rw [if_pos (by simp [hic])]
          simp only [createIconNode]
          cases hlut : lookupIconData (jsTrim (domTextContent
              (.element tag idA cls rect style ch))) with
          | none => simp [hz.1, hz.2, hvis, hic, hlut]
          | some pv =>
            simp [hz.1, hz.2, hvis, hic]
        | false =>
          rw [if_neg (by simp [hic])]
          simp [hz.1, hz.2, hvis, hic]

/-- The children of a box node. -/
def nodeChildren : SimpleNode → List SimpleNode
  | .box _ _ _ _ _ _ _ _ _ _ _ _ _ children => children
  | _ => []

/-- The tag name carried by a node. -/
def nodeTag : SimpleNode → String
  | .box _ tagName _ _ _ _ _ _ _ _ _ _ _ _ => tagName
  | .text _ tagName _ _ _ _ _ _ _ => tagName
  | .icon _ tagName _ _ _ _ _ _ _ _ _ _ => tagName

/-- The hidden child element of the C6 counterexample. -/
def cexHiddenStyle : ComputedStyle :=
  { plainStyle with display := "none" }

/-- A root with one `display:none`, nonzero-sized child element. -/
def cexC6Root : Dom :=
  .element "DIV" "root" "" ⟨0, 0, 100, 50⟩ plainStyle
    [.element "SPAN" "kid" "" ⟨0, 0, 40, 20⟩ cexHiddenStyle []]

/-! ## C4 and C5: the linear-gradient parser -/

/-- The stop tokens of a gradient value: the top-level comma-split argument
list of the first `linear-gradient(...)` segment, with the optional leading
angle token removed. -/
def gradientStopTokens (value : String) : List (List Char) :=
  match extractLinearGradientSegment value.data with
  | none => []
  | some segment =>
    let tokens := splitGradientArgs (gradientInner segment)
    match tokens with
    | [] => []
    | t0 :: _ =>
      let isAngleTok :=
        containsSub t0 (toL "deg") || containsSub t0 (toL "rad") || strStarts (toL "to ") t0
      tokens.drop (if isAngleTok then 1 else 0)

/-- The number of usable stops of a gradient value: the stops the parser
derives from the stop tokens. -/
def usableStopCount (value : String) : Nat :=
  (buildStops (gradientStopTokens value) 0 (gradientStopTokens value).length).length

theorem parseLinearGradient_stops (value : String) (g : LinearGradientFill)
    (h : parseLinearGradient value = some g) :
    g.stops = buildStops (gradientStopTokens value) 0 (gradientStopTokens value).length ∧
      2 ≤ (gradientStopTokens value).length ∧ 2 ≤ g.stops.length := by
  unfold parseLinearGradient at h
  unfold gradientStopTokens
  cases hseg : extractLinearGradientSegment value.data with
  | none =>
    rw [hseg] at h
    exact absurd h (by simp)
  | some segment =>
    rw [hseg] at h
    simp only [] at h ⊢
    cases htk : splitGradientArgs (gradientInner segment) with
    | nil =>
      rw [htk] at h
      exact absurd h (by simp)
    | cons t0 rest =>
      rw [htk] at h
      simp only [] at h ⊢
      by_cases hang : (containsSub t0 (toL "deg") || containsSub t0 (toL "rad") ||
          strStarts (toL "to ") t0) = true
      · simp only [hang, if_true] at h ⊢
        by_cases hlen : (t0 :: rest).length - 1 < 2
        · rw [if_pos hlen] at h
          exact absurd h (by simp)
        · rw [if_neg hlen] at h
          by_cases hst : (buildStops ((t0 :: rest).drop 1) 0 ((t0 :: rest).drop 1).length).length < 2
          · rw [if_pos hst] at h
            exact absurd h (by simp)
          · rw [if_neg hst] at h
            simp only [Option.some.injEq] at h
            subst h
            refine ⟨rfl, ?_, Nat.not_lt.mp hst⟩
            simp only [List.length_drop]
            omega
      · have hang' : (containsSub t0 (toL "deg") || containsSub t0 (toL "rad") ||
            strStarts (toL "to ") t0) = false := by
          cases hb : (containsSub t0 (toL "deg") || containsSub t0 (toL "rad") ||
              strStarts (toL "to ") t0)
          · rfl
          · exact absurd hb hang
        simp only [hang', if_false, Bool.false_eq_true] at h ⊢
        by_cases hlen : (t0 :: rest).length - 0 < 2
        · rw [if_pos hlen] at h
          exact absurd h (by simp)
        · rw [if_neg hlen] at h
          by_cases hst : (buildStops ((t0 :: rest).drop 0) 0 ((t0 :: rest).drop 0).length).length < 2
          · rw [if_pos hst] at h
            exact absurd h (by simp)
          · rw [if_neg hst] at h
            simp only [Option.some.injEq] at h
            subst h
            refine ⟨rfl, ?_, Nat.not_lt.mp hst⟩
            simp only [List.length_drop]
            omega

/-- **C4** (confirmed).  `linear-gradient(45deg, red, blue)` parses to angle
45 with exactly two stops at offsets 0 and 1, and every gradient value with
fewer than two usable stops after the optional angle token yields no gradient
at all (null), never a partial one. -/
theorem C4_parseLinearGradient_stops :
    parseLinearGradient "linear-gradient(45deg, red, blue)" =
        some ⟨45, [⟨"red", 1, 0⟩, ⟨"blue", 1, 1⟩]⟩ ∧
      ∀ value : String, usableStopCount value < 2 → parseLinearGradient value = none := by
  constructor
  · with_unfolding_all decide
  · intro value h
    cases hres : parseLinearGradient value with
    | none => rfl
    | some g =>
      obtain ⟨hs, _, hsl⟩ := parseLinearGradient_stops value g hres
      unfold usableStopCount at h
      rw [← hs] at h
      omega

/-- Witness for C4's universal part: a gradient with a single usable stop. -/
theorem C4_parseLinearGradient_stops_witness :
    usableStopCount "linear-gradient(red)" < 2 ∧
      parseLinearGradient "linear-gradient(red)" = none :=
  ⟨by with_unfolding_all decide,
    C4_parseLinearGradient_stops.2 "linear-gradient(red)" (by with_unfolding_all decide)⟩

/-- Whether a stop token carries an explicit trailing percentage (the token is
trimmed and split exactly as `parseGradientStop` does). -/
def hasExplicitPct (token : List Char) : Bool :=
  match (splitStopWs (trimL token)).reverse with
  | mo :: restRev => decide (restRev ≠ []) && strEnds mo ['%']
  | [] => false

/-- The indices of the usable (non-empty after trimming) tokens, counting
from `i`. -/
def nonEmptyIdxsFrom : List (List Char) → Nat → List Nat
  | [], _ => []
  | t :: rest, i =>
    if trimL t = [] then nonEmptyIdxsFrom rest (i + 1)
    else i :: nonEmptyIdxsFrom rest (i + 1)

theorem parseGradientStop_noPct (t : List Char) (i total : Nat)
    (hp : hasExplicitPct t = false) :
    (trimL t = [] ∧ parseGradientStop (trimL t) i total = none) ∨
    (trimL t ≠ [] ∧ ∃ st, parseGradientStop (trimL t) i total = some st ∧
        st.offset = (i : ℚ) / max ((total : ℚ) - 1) 1) := by
  by_cases ht : trimL t = []
  · exact Or.inl ⟨ht, by simp [parseGradientStop, ht]⟩
  · refine Or.inr ⟨ht, ?_⟩
    unfold parseGradientStop
    rw [if_neg ht]
    unfold hasExplicitPct at hp
    cases hrev : (splitStopWs (trimL t)).reverse with
    | nil =>
      refine ⟨_, rfl, ?_⟩
      simp [hrev]
    | cons mo restRev =>
      rw [hrev] at hp
      have hcond : ¬(restRev ≠ [] ∧ strEnds mo ['%'] = true) := by
        intro hcon
        simp only [Bool.and_eq_false_iff, decide_eq_false_iff_not, not_not] at hp
        rcases hp with hp | hp
        · exact hcon.1 hp
        · rw [hcon.2] at hp
          exact absurd hp (by simp)
      refine ⟨_, rfl, ?_⟩
      simp only [hrev]
      rw [if_neg hcond]
      rfl

theorem buildStops_noPct : ∀ (ts : List (List Char)) (i total : Nat),
    (∀ t ∈ ts, hasExplicitPct t = false) →
    (buildStops ts i total).map GradientStop.offset =
      (nonEmptyIdxsFrom ts i).map (fun j : ℕ => (j : ℚ) / max ((total : ℚ) - 1) 1) := by
  intro ts
  induction ts with
  | nil => intro i total _; rfl
  | cons t rest ih =>
    intro i total h
    have hrest : ∀ x ∈ rest, hasExplicitPct x = false := fun x hx => h x (by simp [hx])
    rcases parseGradientStop_noPct t i total (h t (by simp)) with ⟨he, hnone⟩ |
        ⟨hne, st, hsome, hoff⟩
    · simp only [buildStops, hnone, nonEmptyIdxsFrom, if_pos he]
      exact ih (i + 1) total hrest
    · simp only [buildStops, hsome, nonEmptyIdxsFrom, if_neg hne, List.map_cons, hoff]
      rw [ih (i + 1) total hrest]

theorem nonEmptyIdxs_bounds : ∀ (ts : List (List Char)) (i : Nat),
    ∀ j ∈ nonEmptyIdxsFrom ts i, i ≤ j ∧ j < i + ts.length := by
  intro ts
  induction ts with
  | nil => intro i j hj; simp [nonEmptyIdxsFrom] at hj
  | cons t rest ih =>
    intro i j hj
    simp only [nonEmptyIdxsFrom] at hj
    by_cases ht : trimL t = []
    · rw [if_pos ht] at hj
      have := ih (i + 1) j hj
      constructor
      · omega
      · simp only [List.length_cons]
        omega
    · rw [if_neg ht] at hj
      rcases List.mem_cons.mp hj with hj | hj
      · subst hj
        simp only [List.length_cons]
        omega
      · have := ih (i + 1) j hj
        constructor
        · omega
        · simp only [List.length_cons]
          omega

theorem nonEmptyIdxs_sorted : ∀ (ts : List (List Char)) (i : Nat),
    (nonEmptyIdxsFrom ts i).Pairwise (· < ·) := by
  intro ts
  induction ts with
  | nil => intro i; simp [nonEmptyIdxsFrom]
  | cons t rest ih =>
    intro i
    simp only [nonEmptyIdxsFrom]
    by_cases ht : trimL t = []
    · rw [if_pos ht]
      exact ih (i + 1)
    · rw [if_neg ht]
      refine List.Pairwise.cons ?_ (ih (i + 1))
      intro j hj
      have := (nonEmptyIdxs_bounds rest (i + 1) j hj).1
      omega

/-- **C5** (corrected).  When no stop token of a gradient carries an explicit
trailing percentage, the stop built from token `i` of the `n` stop tokens
receives offset `i / (n - 1)`; consequently the offsets are monotonically
non-decreasing and all lie in `[0, 1]`.  (With explicit percentages the
offsets are NOT confined to `[0, 1]`: `clampNumber` only replaces NaN — see
the counterexample.) -/
theorem C5_gradient_offsets_amended :
    ∀ (value : String) (g : LinearGradientFill),
      parseLinearGradient value = some g →
      (∀ t ∈ gradientStopTokens value, hasExplicitPct t = false) →
      g.stops.map GradientStop.offset =
          (nonEmptyIdxsFrom (gradientStopTokens value) 0).map
            (fun j : ℕ => (j : ℚ) / (((gradientStopTokens value).length : ℚ) - 1)) ∧
        g.stops.Pairwise (fun a b => a.offset ≤ b.offset) ∧
        (∀ st ∈ g.stops, 0 ≤ st.offset ∧ st.offset ≤ 1) := by
  intro value g hres hnp
  obtain ⟨hs, hlen2, _⟩ := parseLinearGradient_stops value g hres
  have hn2 : (2 : ℚ) ≤ ((gradientStopTokens value).length : ℚ) := by exact_mod_cast hlen2
  have hmax : max (((gradientStopTokens value).length : ℚ) - 1) 1 =
      ((gradientStopTokens value).length : ℚ) - 1 := by
    apply max_eq_left
    linarith
  have hpos : (0 : ℚ) < ((gradientStopTokens value).length : ℚ) - 1 := by linarith
  have hmap : g.stops.map GradientStop.offset =
      (nonEmptyIdxsFrom (gradientStopTokens value) 0).map
        (fun j : ℕ => (j : ℚ) / (((gradientStopTokens value).length : ℚ) - 1)) := by
    rw [hs, buildStops_noPct _ _ _ hnp]
    simp only [hmax]
  refine ⟨hmap, ?_, ?_⟩
  · have hsorted := nonEmptyIdxs_sorted (gradientStopTokens value) 0
    have hmono : ((nonEmptyIdxsFrom (gradientStopTokens value) 0).map
        (fun j : ℕ => (j : ℚ) / (((gradientStopTokens value).length : ℚ) - 1))).Pairwise (· ≤ ·) := by
      rw [List.pairwise_map]
      refine hsorted.imp ?_
      intro a b hab
      exact (div_le_div_iff_of_pos_right hpos).mpr (by exact_mod_cast Nat.le_of_lt hab)
    have := hmap ▸ hmono
    exact (List.pairwise_map.mp this).imp (fun h => h)
  · intro st hst
    have hmem : st.offset ∈ g.stops.map GradientStop.offset := List.mem_map_of_mem _ hst
    rw [hmap] at hmem
    obtain ⟨j, hj, hoff⟩ := List.mem_map.mp hmem
    obtain ⟨_, hjn⟩ := nonEmptyIdxs_bounds (gradientStopTokens value) 0 j hj
    constructor
    · rw [← hoff]
      apply div_nonneg
      · exact_mod_cast Nat.zero_le j
      · linarith
    · rw [← hoff]
      rw [div_le_one hpos]
      have hj' : (j : ℚ) ≤ ((gradientStopTokens value).length : ℚ) - 1 := by
        have : j + 1 ≤ (gradientStopTokens value).length := by omega
        have hc : ((j : ℚ) + 1) ≤ ((gradientStopTokens value).length : ℚ) := by
          exact_mod_cast this
        linarith
      linarith

/-- Counterexample to C5 as stated: the stop `red 250%` produces an offset of
2.5, outside `[0, 1]` — the parser clamps only NaN, not out-of-range
percentages. -/
theorem C5_gradient_offsets_counterexample :
    parseLinearGradient "linear-gradient(red 250%, blue)" =
        some ⟨180, [⟨"red", 1, 5 / 2⟩, ⟨"blue", 1, 1⟩]⟩ ∧
      ¬((5 / 2 : ℚ) ≤ 1) := by
  refine ⟨by with_unfolding_all decide, by with_unfolding_all decide⟩

/-- Witness for C5's amended statement at a three-stop gradient without
explicit percentages. -/
theorem C5_gradient_offsets_amended_witness :
    (∀ t ∈ gradientStopTokens "linear-gradient(red, lime, blue)", hasExplicitPct t = false) ∧
    (∀ st ∈ (⟨180, [⟨"red", 1, 0⟩, ⟨"lime", 1, 1 / 2⟩, ⟨"blue", 1, 1⟩]⟩ :
        LinearGradientFill).stops, 0 ≤ st.offset ∧ st.offset ≤ 1) :=
  ⟨by with_unfolding_all decide,
    (C5_gradient_offsets_amended "linear-gradient(red, lime, blue)" _
      (by with_unfolding_all decide) (by with_unfolding_all decide)).2.2⟩

/-! ## C10: determinism of the conversion

The only state outside the per-call arguments is the module-global
`nodeCounter`, threaded here as the `Nat` argument.  The counter flows only
into generated node identifiers, and the emitter never serializes a node
identifier, so the output document is independent of the counter. -/

mutual
/-- Erase the node identifiers of a tree (all other fields kept). -/
def stripNode : SimpleNode → SimpleNode
  | .box _ tagName x y w h o cls bg br bds sh ov ch =>
    .box "" tagName x y w h o cls bg br bds sh ov (stripList ch)
  | .text _ tagName x y w h o cls p => .text "" tagName x y w h o cls p
  | .icon _ tagName x y w h o cls n c p v => .icon "" tagName x y w h o cls n c p v

/-- Erase the node identifiers of a forest. -/
def stripList : List SimpleNode → List SimpleNode
  | [] => []
  | n :: rest => stripNode n :: stripList rest
end

theorem stripList_eq_map : ∀ l : List SimpleNode, stripList l = l.map stripNode := by
  intro l
  induction l with
  | nil => rfl
  | cons n rest ih => simp [stripList, ih]

set_option linter.unusedVariables false in
/-- Strong induction on the size of a node (the nested `children` list defeats
the structural recursor). -/
def simpleNodeStrongInd {P : SimpleNode → Prop}
    (step : ∀ n, (∀ m, sizeOf m < sizeOf n → P m) → P n) : ∀ n, P n :=
  fun n => step n fun m hm => simpleNodeStrongInd step m
termination_by n => sizeOf n
decreasing_by exact hm

set_option linter.unusedVariables false in
/-- Strong induction on the size of a DOM node. -/
def domStrongInd {P : Dom → Prop}
    (step : ∀ d, (∀ e, sizeOf e < sizeOf d → P e) → P d) : ∀ d, P d :=
  fun d => step d fun e he => domStrongInd step e
termination_by d => sizeOf d
decreasing_by exact he

theorem renderChildren_congr (m : JsMath) : ∀ (l l' : List SimpleNode),
    (∀ x ∈ l, ∀ y ctx, stripNode x = stripNode y → renderNode m x ctx = renderNode m y ctx) →
    stripList l = stripList l' →
    ∀ ctx, renderChildren m l ctx = renderChildren m l' ctx := by
  intro l
  induction l with
  | nil =>
    intro l' _ h ctx
    cases l' with
    | nil => rfl
    | cons y ys => exact absurd h (by simp [stripList])
  | cons x xs ih =>
    intro l' hpt h ctx
    cases l' with
    | nil => exact absurd h (by simp [stripList])
    | cons y ys =>
      simp only [stripList, List.cons.injEq] at h
      have hx := hpt x (by simp) y ctx h.1
      simp only [renderChildren, hx]
      rw [ih ys (fun z hz => hpt z (List.mem_cons_of_mem _ hz)) h.2]

theorem renderNode_congr (m : JsMath) :
    ∀ n n' ctx, stripNode n = stripNode n' → renderNode m n ctx = renderNode m n' ctx := by
  intro n
  induction n using simpleNodeStrongInd with
  | step n ih =>
    intro n' ctx heq
    cases n with
    | text id tag x y w h o cls p =>
      cases n' with
      | text id' tag' x' y' w' h' o' cls' p' =>
        simp only [stripNode, SimpleNode.text.injEq] at heq
        obtain ⟨_, h1, h2, h3, h4, h5, h6, h7, h8⟩ := heq
        subst h1; subst h2; subst h3; subst h4; subst h5; subst h6; subst h7; subst h8
        rfl
      | box id' tag' x' y' w' h' o' cls' bg' br' bds' sh' ov' ch' =>
        exact absurd heq (by simp [stripNode])
      | icon id' tag' x' y' w' h' o' cls' n' c' p' v' =>
        exact absurd heq (by simp [stripNode])
    | icon id tag x y w h o cls nm c p v =>
      cases n' with
      | icon id' tag' x' y' w' h' o' cls' nm' c' p' v' =>
        simp only [stripNode, SimpleNode.icon.injEq] at heq
        obtain ⟨_, h1, h2, h3, h4, h5, h6, h7, h8, h9, h10, h11⟩ := heq
        subst h1; subst h2; subst h3; subst h4; subst h5; subst h6; subst h7; subst h8
        subst h9; subst h10; subst h11
        rfl
      | box id' tag' x' y' w' h' o' cls' bg' br' bds' sh' ov' ch' =>
        exact absurd heq (by simp [stripNode])
      | text id' tag' x' y' w' h' o' cls' p' =>
        exact absurd heq (by simp [stripNode])
    | box id tag x y w h o cls bg br bds sh ov ch =>
      cases n' with
      | text id' tag' x' y' w' h' o' cls' p' =>
        exact absurd heq (by simp [stripNode])
      | icon id' tag' x' y' w' h' o' cls' nm' c' p' v' =>
        exact absurd heq (by simp [stripNode])
      | box id' tag' x' y' w' h' o' cls' bg' br' bds' sh' ov' ch' =>
        simp only [stripNode, SimpleNode.box.injEq] at heq
        have hch : ∀ ctx0, renderChildren m ch ctx0 = renderChildren m ch' ctx0 := by
          intro ctx0
          refine renderChildren_congr m ch ch' ?_ heq.2.2.2.2.2.2.2.2.2.2.2.2.2 ctx0
          intro z hz y1 ctx1 hzy
          have hsz : sizeOf z < sizeOf (SimpleNode.box id tag x y w h o cls bg br
              bds sh ov ch) := by
            have := List.sizeOf_lt_of_mem hz
            simp only [SimpleNode.box.sizeOf_spec]
            omega
          exact ih z hsz y1 ctx1 hzy
        obtain ⟨_, h1, h2, h3, h4, h5, h6, h7, h8, h9, h10, h11, h12, _⟩ := heq
        subst h1; subst h2; subst h3; subst h4; subst h5; subst h6; subst h7; subst h8
        subst h9; subst h10; subst h11; subst h12
        simp only [renderNode, hch]

theorem textNodesOfSegs_strip (tagName className : String) (style : ComputedStyle)
    (rootRect : Rect) (opacity : ℚ) (color : String) (colorOpacity fontSize : ℚ)
    (fontFamily : String) (lineHeight letterSpacing : ℚ) (textAnchor : String) :
    ∀ (segs : List LineSeg) (c c' : Nat),
      ((textNodesOfSegs tagName className style rootRect opacity color colorOpacity fontSize
          fontFamily lineHeight letterSpacing textAnchor segs c).1).map stripNode =
        ((textNodesOfSegs tagName className style rootRect opacity color colorOpacity fontSize
          fontFamily lineHeight letterSpacing textAnchor segs c').1).map stripNode := by
  intro segs
  induction segs with
  | nil => intro c c'; rfl
  | cons seg rest ih =>
    intro c c'
    by_cases h1 : trimL seg.text = []
    · simp only [textNodesOfSegs, if_pos h1]
      exact ih c c'
    · by_cases h2 : seg.rect.width = 0 ∨ seg.rect.height = 0
      · simp only [textNodesOfSegs, if_neg h1, if_pos h2]
        exact ih c c'
      · simp only [textNodesOfSegs, if_neg h1, if_neg h2, List.map_cons, stripNode]
        rw [ih (c + 1) (c' + 1)]

theorem collectTextGo_strip (tagName className : String) (style : ComputedStyle)
    (rootRect : Rect) (opacity : ℚ) :
    ∀ (children : List Dom) (c c' : Nat),
      ((collectTextGo tagName className style rootRect opacity children c).1).map stripNode =
        ((collectTextGo tagName className style rootRect opacity children c').1).map
          stripNode := by
  intro children
  induction children with
  | nil => intro c c'; rfl
  | cons child rest ih =>
    intro c c'
    cases child with
    | element t i cl r s ch =>
      simp only [collectTextGo]
      exact ih c c'
    | textChild content charRects =>
      by_cases h1 : trimL (collapseWsL content.data) = []
      · simp only [collectTextGo, if_pos h1]
        exact ih c c'
      · simp only [collectTextGo, if_neg h1, List.map_append]
        rw [textNodesOfSegs_strip _ _ _ _ _ _ _ _ _ _ _ _ _ c c', ih]

theorem createIconNode_strip (tagName className : String) (rect : Rect)
    (style : ComputedStyle) (textContent : String) (rootRect : Rect) (c c' : Nat) :
    ((createIconNode tagName className rect style textContent rootRect c).1).map stripNode =
      ((createIconNode tagName className rect style textContent rootRect c').1).map
        stripNode := by
  simp only [createIconNode]
  cases lookupIconData (jsTrim textContent) with
  | none => rfl
  | some pv =>
    by_cases hz : rect.width = 0 ∨ rect.height = 0
    · simp [hz]
    · simp [hz, stripNode]

theorem snapshotChildren_strip (children : List Dom)
    (hpt : ∀ x ∈ children, ∀ (r : Rect) (ah : Bool) (c c' : Nat),
      ((createNodeFromElement x r ah c).1).map stripNode =
        ((createNodeFromElement x r ah c').1).map stripNode) :
    ∀ (r : Rect) (ah : Bool) (c c' : Nat),
      ((snapshotChildren children r ah c).1).map stripNode =
        ((snapshotChildren children r ah c').1).map stripNode := by
  induction children with
  | nil => intro r ah c c'; rfl
  | cons child rest ih =>
    intro r ah c c'
    have ihrest := ih (fun x hx => hpt x (by simp [hx]))
    cases child with
    | textChild s rs =>
      simp only [snapshotChildren]
      exact ihrest r ah c c'
    | element tagName idA cls rect style ch =>
      by_cases hig : ignoredTags.contains tagName = true
      · simp only [snapshotChildren, hig, if_true]
        exact ihrest r ah c c'
      · have hig' : ignoredTags.contains tagName = false := by
          cases hb : ignoredTags.contains tagName
          · rfl
          · exact absurd hb hig
        simp only [snapshotChildren, hig', Bool.false_eq_true, if_false]
        have hchild := hpt (Dom.element tagName idA cls rect style ch) (by simp) r ah c c'
        cases hc1 : (createNodeFromElement (.element tagName idA cls rect style ch) r ah c).1 with
        | none =>
          cases hc2 : (createNodeFromElement (.element tagName idA cls rect style ch) r ah c').1 with
          | none =>
            simpa using ihrest r ah _ _
          | some t =>
            rw [hc1, hc2] at hchild
            exact absurd hchild (by simp)
        | some t1 =>
          cases hc2 : (createNodeFromElement (.element tagName idA cls rect style ch) r ah c').1 with
          | none =>
            rw [hc1, hc2] at hchild
            exact absurd hchild (by simp)
          | some t2 =>
            rw [hc1, hc2] at hchild
            simp only [Option.map_some'] at hchild
            injection hchild with hchild
            simp only [List.map_cons, hchild]
            rw [ihrest r ah _ _]

theorem createNodeFromElement_strip :
    ∀ (d : Dom) (r : Rect) (ah : Bool) (c c' : Nat),
      ((createNodeFromElement d r ah c).1).map stripNode =
        ((createNodeFromElement d r ah c').1).map stripNode := by
  intro d
  induction d using domStrongInd with
  | step d ih =>
    intro r ah c c'
    cases d with
    | textChild s rs => rfl
    | element tagName idA cls rect style ch =>
      simp only [createNodeFromElement]
      by_cases hz : rect.width = 0 ∨ rect.height = 0
      · rw [if_pos hz, if_pos hz]
      · rw [if_neg hz, if_neg hz]
        by_cases hv : ¬(ah = true) ∧ ¬(isRenderable style = true)
        · rw [if_pos hv, if_pos hv]
        · rw [if_neg hv, if_neg hv]
          by_cases hic : classListContains cls "material-symbols-outlined" = true
          · rw [if_pos hic, if_pos hic]
            exact createIconNode_strip _ _ _ _ _ _ c c'
          · rw [if_neg hic, if_neg hic]
            simp only [Option.map_some', Option.some.injEq, stripNode, SimpleNode.box.injEq,
              true_and]
            rw [stripList_eq_map, stripList_eq_map, List.map_append, List.map_append]
            have htext := collectTextGo_strip tagName cls style r
              (clampNumber (jsParseFloatL style.opacity.data) 1) ch
            have hsnap := snapshotChildren_strip ch ?hpt r ah
            case hpt =>
              intro x hx r0 ah0 c0 c0'
              have hsz : sizeOf x < sizeOf (Dom.element tagName idA cls rect style ch) := by
                have := List.sizeOf_lt_of_mem hx
                simp only [Dom.element.sizeOf_spec]
                omega
              exact ih x hsz r0 ah0 c0 c0'
            simp only [collectTextNodes]
            rw [htext _ _, hsnap _ _]

/-- **C10** (confirmed).  The conversion is deterministic over the snapshot:
for identical snapshot inputs (the same DOM tree, geometry and style readings)
and identical options, two invocations of `htmlToSvg` produce identical
results — in particular identical output document strings with identical
generated identifiers — regardless of the value the process-global
`nodeCounter` has reached.  (Node identifiers, the only counter-dependent
data, are never serialized; gradient/filter/clip identifiers come from the
per-call `RenderContext` that starts fresh at 0.) -/
theorem C10_htmlToSvg_deterministic :
    ∀ (m : JsMath) (rootElement : Option Dom) (options : HtmlToSvgOptions) (c c' : Nat),
      (htmlToSvg m rootElement options c).1 = (htmlToSvg m rootElement options c').1 := by
  intro m rootElement options c c'
  cases rootElement with
  | none => rfl
  | some r =>
    simp only [htmlToSvg]
    by_cases hz : (domRect r).width = 0 ∨ (domRect r).height = 0
    · rw [if_pos hz, if_pos hz]
    · rw [if_neg hz, if_neg hz]
      have hstrip := createNodeFromElement_strip r (domRect r) true c c'
      cases h1 : (createNodeFromElement r (domRect r) true c).1 with
      | none =>
        cases h2 : (createNodeFromElement r (domRect r) true c').1 with
        | none => rfl
        | some t =>
          rw [h1, h2] at hstrip
          exact absurd hstrip (by simp)
      | some t1 =>
        cases h2 : (createNodeFromElement r (domRect r) true c').1 with
        | none =>
          rw [h1, h2] at hstrip
          exact absurd hstrip (by simp)
        | some t2 =>
          rw [h1, h2] at hstrip
          simp only [Option.map_some'] at hstrip
          injection hstrip with hst
          simp only [renderNode_congr m t1 t2 ⟨[], 0, 0⟩ hst]

/-- Counterexample to C6 as stated: under an always-capture root, a non-root
element with nonzero size whose resolved style is non-renderable
(`display:none`) is NOT skipped — the snapshot of the root contains a node
for it. -/
theorem C6_snapshot_skip_counterexample :
    isRenderable cexHiddenStyle = false ∧
    ¬((40 : ℚ) = 0 ∨ (20 : ℚ) = 0) ∧
    ((createNodeFromElement cexC6Root ⟨0, 0, 100, 50⟩ true 0).1.map
      (fun n => (nodeChildren n).map nodeTag)) = some ["span"] := by
  refine ⟨by with_unfolding_all decide, by with_unfolding_all decide,
    by with_unfolding_all decide⟩

end HtmlSvg
